import Mathlib

/-!
Verification of the gemini-cli provider adapter (translation and streaming
pipeline).  Shallow embedding of:
  * `cleanJsonSchema` (src/tool-mapper.ts) over a JS-value model,
  * `prepareGenerationConfig`, `normalizeThinkingLevel`, `buildThinkingConfig`,
    `mapGeminiFinishReason`, `doGenerate`, `doStream` (src/gemini-language-model.ts),
  * `mapUserMessage`, `mapAssistantMessage`, `mapFilePart` (message mapper).
JS objects are modelled as ordered association lists, JS `undefined` / absent
fields as `Option`, machine integers as `Nat`/`Int`.  `Date.now()` timestamps
and `randomUUID()` are modelled by a deterministic fresh-id counter (the code
only requires the ids to be stable and fresh).
-/

-- JS value (JSON-like) model.  Objects keep insertion order, as JS objects
-- used for JSON schemas do.  `jsNum` uses `Int`: no claim observes fractional
-- numeric values.
mutual

inductive Json where
  | null : Json
  | jsBool : Bool → Json
  | jsNum : Int → Json
  | jsStr : String → Json
  | jsArr : JsonArr → Json
  | jsObj : JsonObj → Json

inductive JsonArr where
  | nil : JsonArr
  | cons : Json → JsonArr → JsonArr

inductive JsonObj where
  | nil : JsonObj
  | cons : String → Json → JsonObj → JsonObj

end

/-- JS truthiness of a value. -/
def jsTruthy : Json → Bool
  | .null => false
  | .jsBool b => b
  | .jsNum n => n != 0
  | .jsStr s => s != ""
  | .jsArr _ => true
  | .jsObj _ => true

/-- JS `typeof v === 'object'` (true for objects, arrays and null). -/
def jsTypeofObject : Json → Bool
  | .null => true
  | .jsArr _ => true
  | .jsObj _ => true
  | _ => false

/-- First value bound to a key (JS property read on a well-formed object). -/
def JsonObj.lookup (k : String) : JsonObj → Option Json
  | .nil => none
  | .cons k' v tl => if k' = k then some v else lookup k tl

def JsonObj.hasKey (k : String) : JsonObj → Bool
  | .nil => false
  | .cons k' _ tl => k' == k || hasKey k tl

/-- Append a field at the end (JS assignment to an absent key). -/
def JsonObj.push (fs : JsonObj) (k : String) (v : Json) : JsonObj :=
  match fs with
  | .nil => .cons k v .nil
  | .cons k' v' tl => .cons k' v' (tl.push k v)

/-- The keys `cleanJsonSchema` deletes. -/
def bannedKeys : List String := ["$schema", "$ref", "$defs", "definitions"]

/-- Final step of `cleanJsonSchema`: `if (cleaned.properties && cleaned.type
=== undefined) cleaned.type = 'object'`. -/
def addTypeIfNeeded (fs : JsonObj) : JsonObj :=
  match fs.lookup "properties" with
  | some v => if jsTruthy v && !(fs.hasKey "type") then fs.push "type" (.jsStr "object") else fs
  | none => fs

/-- `Object.entries` of an array: index-keyed entries `("0", x0), ("1", x1), …`
(also the shape `{...arr}` produces). -/
def indexFields (i : Nat) : JsonArr → JsonObj
  | .nil => .nil
  | .cons h t => .cons (toString i) h (indexFields (i + 1) t)

mutual

/-- `cleanJsonSchema` from src/tool-mapper.ts.  Non-objects are returned
unchanged; `{...schema}` of an array yields an index-keyed object (see
`cleanIndexedGo`, and the lemma `cleanIndexedGo_eq_indexFields` relating it to
the plain spread); objects go through: delete the four banned keys, clean
`properties` values / `items` / object-valued `additionalProperties` /
array-valued `allOf`/`anyOf`/`oneOf` recursively, then add `type: "object"`
when `properties` is truthy and `type` is absent. -/
def jsClean : Json → Json
  | .jsObj fs => .jsObj (addTypeIfNeeded (cleanFieldsGo fs))
  | .jsArr xs => .jsObj (addTypeIfNeeded (cleanIndexedGo 0 xs))
  | v => v
termination_by structural j => j

/-- One pass over the (copied) fields: drop banned keys, rewrite the values of
the recursively-cleaned keys in place, keep everything else. -/
def cleanFieldsGo : JsonObj → JsonObj
  | .nil => .nil
  | .cons k v tl =>
    if k ∈ bannedKeys then cleanFieldsGo tl
    else
      .cons k
        (if k = "properties" then
          match v with
          | .jsObj ps => .jsObj (cleanEachVal ps)
          | .jsArr xs => .jsObj (cleanEachIndexed 0 xs)
          | _ => v
        else if k = "items" then
          (if jsTruthy v then jsClean v else v)
        else if k = "additionalProperties" then
          (if jsTruthy v && jsTypeofObject v then jsClean v else v)
        else if k = "allOf" ∨ k = "anyOf" ∨ k = "oneOf" then
          match v with
          | .jsArr xs => .jsArr (mapCleanArr xs)
          | _ => v
        else v)
        (cleanFieldsGo tl)
termination_by structural fs => fs

/-- The `properties` loop: clean every value of `Object.entries(properties)`. -/
def cleanEachVal : JsonObj → JsonObj
  | .nil => .nil
  | .cons k v tl => .cons k (jsClean v) (cleanEachVal tl)
termination_by structural fs => fs

/-- The `properties` loop when `properties` is an array: `Object.entries`
yields index-keyed entries, each value cleaned. -/
def cleanEachIndexed (i : Nat) : JsonArr → JsonObj
  | .nil => .nil
  | .cons h t => .cons (toString i) (jsClean h) (cleanEachIndexed (i + 1) t)
termination_by structural xs => xs

/-- `cleanFieldsGo` applied to the index-keyed spread of an array (needed as a
separate structural function; `cleanIndexedGo_eq_indexFields` proves it equal
to `cleanFieldsGo (indexFields i xs)`). -/
def cleanIndexedGo (i : Nat) : JsonArr → JsonObj
  | .nil => .nil
  | .cons h t =>
    if toString i ∈ bannedKeys then cleanIndexedGo (i + 1) t
    else
      .cons (toString i)
        (if toString i = "properties" then
          match h with
          | .jsObj ps => .jsObj (cleanEachVal ps)
          | .jsArr xs => .jsObj (cleanEachIndexed 0 xs)
          | _ => h
        else if toString i = "items" then
          (if jsTruthy h then jsClean h else h)
        else if toString i = "additionalProperties" then
          (if jsTruthy h && jsTypeofObject h then jsClean h else h)
        else if toString i = "allOf" ∨ toString i = "anyOf" ∨ toString i = "oneOf" then
          match h with
          | .jsArr xs => .jsArr (mapCleanArr xs)
          | _ => h
        else h)
        (cleanIndexedGo (i + 1) t)
termination_by structural xs => xs

/-- `allOf`/`anyOf`/`oneOf` handling: `arrayProp.map(cleanJsonSchema)`. -/
def mapCleanArr : JsonArr → JsonArr
  | .nil => .nil
  | .cons h t => .cons (jsClean h) (mapCleanArr t)
termination_by structural xs => xs

end

/-- The per-key value transformation `cleanFieldsGo` performs (stated after the
mutual block so the characterisation lemmas can share it). -/
def cleanVal (k : String) (v : Json) : Json :=
  if k = "properties" then
    match v with
    | .jsObj ps => .jsObj (cleanEachVal ps)
    | .jsArr xs => .jsObj (cleanEachIndexed 0 xs)
    | _ => v
  else if k = "items" then
    (if jsTruthy v then jsClean v else v)
  else if k = "additionalProperties" then
    (if jsTruthy v && jsTypeofObject v then jsClean v else v)
  else if k = "allOf" ∨ k = "anyOf" ∨ k = "oneOf" then
    match v with
    | .jsArr xs => .jsArr (mapCleanArr xs)
    | _ => v
  else v

-- Deep key-containment: does any object node anywhere in the tree (through
-- all object values and array elements) bind the key `k`?
mutual

def deepContains (k : String) : Json → Bool
  | .jsObj fs => fieldsContain k fs
  | .jsArr xs => arrContains k xs
  | _ => false
termination_by structural j => j

def fieldsContain (k : String) : JsonObj → Bool
  | .nil => false
  | .cons k2 v tl => k2 == k || deepContains k v || fieldsContain k tl
termination_by structural fs => fs

def arrContains (k : String) : JsonArr → Bool
  | .nil => false
  | .cons h t => deepContains k h || arrContains k t
termination_by structural xs => xs

end

-- Banned-key freeness along the positions `cleanJsonSchema` cleans
-- recursively (the spec's own invariant list): the node's own keys, the
-- values of `properties`, the `items` and `additionalProperties` values, and
-- the elements of array-valued `allOf`/`anyOf`/`oneOf`.  Keys nested under
-- other keywords are outside this region.
mutual

def noBannedAlong : Json → Bool
  | .jsObj fs => noBannedFields fs
  | _ => true
termination_by structural j => j

def noBannedFields : JsonObj → Bool
  | .nil => true
  | .cons k v tl =>
    !(bannedKeys.contains k) &&
    (if k = "properties" then
      match v with
      | .jsObj ps => allValsNoBanned ps
      | _ => true
    else if k = "items" ∨ k = "additionalProperties" then noBannedAlong v
    else if k = "allOf" ∨ k = "anyOf" ∨ k = "oneOf" then
      match v with
      | .jsArr xs => allArrNoBanned xs
      | _ => true
    else true) &&
    noBannedFields tl
termination_by structural fs => fs

def allValsNoBanned : JsonObj → Bool
  | .nil => true
  | .cons _ v tl => noBannedAlong v && allValsNoBanned tl
termination_by structural fs => fs

def allArrNoBanned : JsonArr → Bool
  | .nil => true
  | .cons h t => noBannedAlong h && allArrNoBanned t
termination_by structural xs => xs

end

/-- Per-key clause of `noBannedFields` (stated standalone for reuse). -/
def alongVal (k : String) (v : Json) : Bool :=
  if k = "properties" then
    match v with
    | .jsObj ps => allValsNoBanned ps
    | _ => true
  else if k = "items" ∨ k = "additionalProperties" then noBannedAlong v
  else if k = "allOf" ∨ k = "anyOf" ∨ k = "oneOf" then
    match v with
    | .jsArr xs => allArrNoBanned xs
    | _ => true
  else true

/-- ThinkingLevel enum (src/gemini-language-model.ts). -/
inductive ThinkingLevel where
  | LOW
  | MEDIUM
  | HIGH
  | MINIMAL
deriving DecidableEq, Repr

/-- `level.toUpperCase()`, written over the character list so that it is
kernel-computable (`String.toUpper` itself is compiled by well-founded
recursion and does not reduce). -/
def jsToUpper (s : String) : String := String.mk (s.data.map Char.toUpper)

/-- `normalizeThinkingLevel`: case-insensitive parse, `undefined` on failure. -/
def normalizeThinkingLevel (level : String) : Option ThinkingLevel :=
  match jsToUpper level with
  | "LOW" => some .LOW
  | "MEDIUM" => some .MEDIUM
  | "HIGH" => some .HIGH
  | "MINIMAL" => some .MINIMAL
  | _ => none

/-- The `thinkingLevel` input may be a string or already a ThinkingLevel. -/
inductive LevelInput where
  | str : String → LevelInput
  | lvl : ThinkingLevel → LevelInput
deriving DecidableEq, Repr

/-- `ThinkingConfigInput`: all three fields optional (absent = `none`; JS
objects carrying explicitly-`undefined` keys are not distinguished from ones
without the key, which no claim exercises). -/
structure ThinkingConfigInput where
  thinkingLevel : Option LevelInput := none
  thinkingBudget : Option Int := none
  includeThoughts : Option Bool := none
deriving DecidableEq, Repr

/-- The thinkingConfig object placed in the generation config. -/
structure ThinkingConfigOut where
  thinkingLevel : Option ThinkingLevel := none
  thinkingBudget : Option Int := none
  includeThoughts : Option Bool := none
deriving DecidableEq, Repr

/-- `buildThinkingConfig`: normalize a string level (skipping the field when
normalization fails), copy budget and includeThoughts when present. -/
def buildThinkingConfig (input : ThinkingConfigInput) : ThinkingConfigOut :=
  { thinkingLevel :=
      match input.thinkingLevel with
      | some (.str s) => normalizeThinkingLevel s
      | some (.lvl l) => some l
      | none => none
    thinkingBudget := input.thinkingBudget
    includeThoughts := input.includeThoughts }

/-- The call-time thinkingConfig validation in `prepareGenerationConfig`: a
string `thinkingLevel` that fails to normalize is removed from the override;
if no other field remains (`Object.keys(rest).length > 0` fails) the whole
override becomes absent. -/
def effectiveOptionsThinking (o : Option ThinkingConfigInput) : Option ThinkingConfigInput :=
  match o with
  | none => none
  | some tc =>
    match tc.thinkingLevel with
    | some (.str s) =>
      if normalizeThinkingLevel s = none then
        if tc.thinkingBudget = none ∧ tc.includeThoughts = none then none
        else some { tc with thinkingLevel := none }
      else o
    | _ => o

/-- `settingsThinkingConfig || effectiveOptionsThinking ? {...settings,
...effective} : undefined` — note a present-but-empty object is truthy, and
spread lets override fields win per-field. -/
def mergeThinkingConfig (s o : Option ThinkingConfigInput) : Option ThinkingConfigInput :=
  match s, o with
  | none, none => none
  | _, _ => some
    { thinkingLevel := (o.bind fun t => t.thinkingLevel).orElse fun _ => s.bind fun t => t.thinkingLevel
      thinkingBudget := (o.bind fun t => t.thinkingBudget).orElse fun _ => s.bind fun t => t.thinkingBudget
      includeThoughts := (o.bind fun t => t.includeThoughts).orElse fun _ => s.bind fun t => t.includeThoughts }

/-- `responseFormat` call option: a `type` tag plus an optional schema. -/
structure ResponseFormat where
  rtype : String
  schema : Option Json := none

/-- A SharedV3Warning as produced here. -/
structure Warning where
  wtype : String
  feature : String
  details : String
deriving DecidableEq, Repr

/-- The single warning `prepareGenerationConfig` can push. -/
def responseFormatWarning : Warning :=
  { wtype := "unsupported"
    feature := "responseFormat"
    details := "JSON response format without a schema is not supported. Treating as plain text. Provide a schema for structured output." }

inductive ToolChoice where
  | auto
  | none
  | required
  | tool : String → ToolChoice

inductive FunctionCallingConfigMode where
  | AUTO
  | NONE
  | ANY
  | MODE_UNSPECIFIED
deriving DecidableEq, Repr

structure FunctionCallingConfig where
  allowedFunctionNames : Option (List String)
  mode : FunctionCallingConfigMode
deriving DecidableEq, Repr

structure ToolConfig where
  functionCallingConfig : FunctionCallingConfig
deriving DecidableEq, Repr

/-- `mapToolChoiceToGeminiFormat` (src/tool-mapper.ts). -/
def mapToolChoiceToGeminiFormat : ToolChoice → FunctionCallingConfigMode
  | .auto => .AUTO
  | .none => .NONE
  | .required => .ANY
  | .tool _ => .ANY

/-- `mapGeminiToolConfig` (src/tool-mapper.ts); takes the `toolChoice` field
of the call options. -/
def mapGeminiToolConfig (toolChoice : Option ToolChoice) : Option ToolConfig :=
  match toolChoice with
  | some tc => some
    { functionCallingConfig :=
        { allowedFunctionNames :=
            match tc with
            | .tool n => some [n]
            | _ => Option.none
          mode := mapToolChoiceToGeminiFormat tc } }
  | none => none

/-- The call-option fields `prepareGenerationConfig` consumes.  The numeric
sampling parameters are opaque to every claim; their JS float values are
modelled as integers. -/
structure CallOptions where
  responseFormat : Option ResponseFormat := none
  temperature : Option Int := none
  topP : Option Int := none
  topK : Option Int := none
  maxOutputTokens : Option Int := none
  stopSequences : Option (List String) := none
  toolChoice : Option ToolChoice := none
  thinkingConfig : Option ThinkingConfigInput := none

/-- The model-level `settings` fields `prepareGenerationConfig` consumes. -/
structure ModelSettings where
  temperature : Option Int := none
  topP : Option Int := none
  topK : Option Int := none
  maxOutputTokens : Option Int := none
  thinkingConfig : Option ThinkingConfigInput := none

structure GenerationConfig where
  temperature : Option Int
  topP : Option Int
  topK : Option Int
  maxOutputTokens : Option Int
  stopSequences : Option (List String)
  responseMimeType : String
  responseJsonSchema : Option Json
  toolConfig : Option ToolConfig
  thinkingConfig : Option ThinkingConfigOut

/-- `prepareGenerationConfig` (src/gemini-language-model.ts, lines 186-267):
JSON-mode downgrade policy, warning emission, thinkingConfig validation and
merge, sampling-parameter precedence. -/
def prepareGenerationConfig (options : CallOptions) (settings : ModelSettings) :
    GenerationConfig × List Warning :=
  let isJsonMode : Bool :=
    match options.responseFormat with
    | some rf => rf.rtype == "json"
    | none => false
  let schema : Option Json :=
    if isJsonMode then options.responseFormat.bind fun rf => rf.schema else none
  let hasSchema : Bool := isJsonMode && schema.isSome
  let warnings : List Warning :=
    if isJsonMode && !hasSchema then [responseFormatWarning] else []
  let effOpts := effectiveOptionsThinking options.thinkingConfig
  let merged := mergeThinkingConfig settings.thinkingConfig effOpts
  let thinking : Option ThinkingConfigOut := merged.map buildThinkingConfig
  ({ temperature := options.temperature.orElse fun _ => settings.temperature
     topP := options.topP.orElse fun _ => settings.topP
     topK := options.topK.orElse fun _ => settings.topK
     maxOutputTokens := options.maxOutputTokens.orElse fun _ => settings.maxOutputTokens
     stopSequences := options.stopSequences
     responseMimeType := if hasSchema then "application/json" else "text/plain"
     responseJsonSchema := if hasSchema then schema else none
     toolConfig := mapGeminiToolConfig options.toolChoice
     thinkingConfig := thinking }, warnings)

/-- Unified finish reasons of the AI SDK. -/
inductive UnifiedFinishReason where
  | stop
  | length
  | contentFilter
  | toolCalls
  | other
deriving DecidableEq, Repr

structure FinishReason where
  unified : UnifiedFinishReason
  raw : Option String
deriving DecidableEq, Repr

/-- `mapGeminiFinishReason` (src/gemini-language-model.ts, lines 109-125). -/
def mapGeminiFinishReason (geminiReason : Option String) : FinishReason :=
  match geminiReason with
  | some "STOP" => { unified := .stop, raw := geminiReason }
  | some "MAX_TOKENS" => { unified := .length, raw := geminiReason }
  | some "SAFETY" => { unified := .contentFilter, raw := geminiReason }
  | some "RECITATION" => { unified := .contentFilter, raw := geminiReason }
  | some "OTHER" => { unified := .other, raw := geminiReason }
  | _ => { unified := .other, raw := geminiReason }

structure InputTokens where
  total : Option Nat
  noCache : Option Nat
  cacheRead : Option Nat
  cacheWrite : Option Nat
deriving DecidableEq, Repr

structure OutputTokens where
  total : Option Nat
  text : Option Nat
  reasoning : Option Nat
deriving DecidableEq, Repr

/-- LanguageModelV3Usage: the SDK allows every field, the totals included, to
be absent (the "unknown" marker); the adapter always supplies totals. -/
structure Usage where
  inputTokens : InputTokens
  outputTokens : OutputTokens
deriving DecidableEq, Repr

/-- The usage object both paths build: totals present, breakdowns absent. -/
def mkUsage (inTok outTok : Nat) : Usage :=
  { inputTokens := { total := some inTok, noCache := none, cacheRead := none, cacheWrite := none }
    outputTokens := { total := some outTok, text := none, reasoning := none } }

/-- `usageMetadata` of a backend response/chunk. -/
structure UsageMetadata where
  promptTokenCount : Option Nat
  candidatesTokenCount : Option Nat
deriving DecidableEq, Repr

structure FunctionCall where
  name : Option String
  args : Option Json

/-- A backend content part: the code tests `part.text` (truthiness) first,
else `part.functionCall`. -/
structure GPart where
  text : Option String := none
  functionCall : Option FunctionCall := none
  thoughtSignature : Option String := none

/-- `candidates?.[0]` of a response or chunk; `content?.parts` is folded into
a plain list (an absent or empty parts array produces no events either way). -/
structure GCandidate where
  parts : List GPart := []
  finishReason : Option String := none

structure GenResponse where
  candidate : Option GCandidate := none
  usageMetadata : Option UsageMetadata := none

/-- Stream chunks have the same shape as non-streaming responses. -/
abbrev Chunk := GenResponse

/-- `if (part.text)`: the text field is present and non-empty. -/
def textTruthy (p : GPart) : Bool :=
  match p.text with
  | some s => s != ""
  | none => false

/-- The part takes the `else if (part.functionCall)` branch. -/
def partFiresToolCall (p : GPart) : Bool :=
  !(textTruthy p) && p.functionCall.isSome

/-- Content item of the non-streaming result.  `args` carries
`functionCall.args || {}`; its `JSON.stringify` text rendering is not
modelled (no claim observes it). -/
inductive ContentItem where
  | text (text : String)
  | toolCall (toolCallId : Nat) (toolName : String) (args : Json) (thoughtSignature : Option String)

/-- The content loop of `doGenerate` (lines 456-484): returns the advanced
fresh-id counter, the content list, and the `hasToolCalls` flag. -/
def buildContent (ctr : Nat) : List GPart → Nat × List ContentItem × Bool
  | [] => (ctr, [], false)
  | p :: rest =>
    if textTruthy p then
      let r := buildContent ctr rest
      (r.1, .text (p.text.getD "") :: r.2.1, r.2.2)
    else
      match p.functionCall with
      | some fc =>
        let r := buildContent (ctr + 1) rest
        (r.1, .toolCall ctr (fc.name.getD "") (fc.args.getD (.jsObj .nil)) p.thoughtSignature :: r.2.1, true)
      | none => buildContent ctr rest

structure GenResult where
  content : List ContentItem
  finishReason : FinishReason
  usage : Usage
  warnings : List Warning

def responseParts (r : GenResponse) : List GPart :=
  match r.candidate with
  | some c => c.parts
  | none => []

def responseRawReason (r : GenResponse) : Option String :=
  r.candidate.bind fun c => c.finishReason

/-- `doGenerate` (src/gemini-language-model.ts, lines 331-542), response
mapping only: content array, `tool-calls` forcing, usage with `|| 0`
defaults, warnings from the generation config. -/
def doGenerateModel (options : CallOptions) (settings : ModelSettings)
    (response : GenResponse) : GenResult :=
  let pw := prepareGenerationConfig options settings
  let built := buildContent 0 (responseParts response)
  let hasToolCalls := built.2.2
  let inputTokens := (response.usageMetadata.bind fun u => u.promptTokenCount).getD 0
  let outputTokens := (response.usageMetadata.bind fun u => u.candidatesTokenCount).getD 0
  let finishReason :=
    if hasToolCalls then
      { unified := UnifiedFinishReason.toolCalls, raw := responseRawReason response }
    else mapGeminiFinishReason (responseRawReason response)
  { content := built.2.1
    finishReason := finishReason
    usage := mkUsage inputTokens outputTokens
    warnings := pw.2 }

/-- Stream events (LanguageModelV3StreamPart as emitted here).  `randomUUID`
ids are modelled by the fresh counter; `response-metadata`'s wall-clock
timestamp is not modelled (real time). -/
inductive StreamEvent where
  | streamStart (warnings : List Warning)
  | textStart (id : Nat)
  | textDelta (id : Nat) (delta : String)
  | textEnd (id : Nat)
  | toolCall (toolCallId : Nat) (toolName : String) (args : Json) (thoughtSignature : Option String)
  | responseMetadata (id : Nat) (modelId : String)
  | finish (finishReason : FinishReason) (usage : Usage)

/-- Terminal failure of the emitted stream.  Only the cooperative abort is
modelled; a backend iterable that throws mid-iteration is outside every
claim. -/
inductive StreamFailure where
  | aborted
deriving DecidableEq, Repr

/-- Per-request local state of the stream transform. -/
structure StreamState where
  ctr : Nat
  textPartId : Option Nat
  hasToolCalls : Bool
  totalInputTokens : Nat
  totalOutputTokens : Nat

def initStreamState : StreamState :=
  { ctr := 0, textPartId := none, hasToolCalls := false
    totalInputTokens := 0, totalOutputTokens := 0 }

/-- Per-part step of the chunk loop (lines 702-739): a truthy text part opens
the text block if none is open and emits a delta with the stable id; else a
functionCall part emits one atomic tool-call and sets `hasToolCalls`. -/
def processPart (st : StreamState) (p : GPart) : StreamState × List StreamEvent :=
  if textTruthy p then
    match st.textPartId with
    | none =>
      ({ st with ctr := st.ctr + 1, textPartId := some st.ctr },
        [.textStart st.ctr, .textDelta st.ctr (p.text.getD "")])
    | some tid => (st, [.textDelta tid (p.text.getD "")])
  else
    match p.functionCall with
    | some fc =>
      ({ st with ctr := st.ctr + 1, hasToolCalls := true },
        [.toolCall st.ctr (fc.name.getD "") (fc.args.getD (.jsObj .nil)) p.thoughtSignature])
    | none => (st, [])

def processParts (st : StreamState) : List GPart → StreamState × List StreamEvent
  | [] => (st, [])
  | p :: rest =>
    let r := processPart st p
    let r2 := processParts r.1 rest
    (r2.1, r.2 ++ r2.2)

/-- `if (candidate?.finishReason)`: the finish reason is a truthy string. -/
def truthyFinish (fr : Option String) : Bool :=
  match fr with
  | some s => s != ""
  | none => false

/-- `if (chunk.usageMetadata)`: later running totals replace earlier ones,
each count coerced with `|| 0`. -/
def updateUsage (st : StreamState) (um : Option UsageMetadata) : StreamState :=
  match um with
  | some u =>
    { st with totalInputTokens := u.promptTokenCount.getD 0
              totalOutputTokens := u.candidatesTokenCount.getD 0 }
  | none => st

/-- The terminal-signal block (lines 742-797): close an open text block (the
id is NOT reset), compute the finish reason (forced to `tool-calls` when any
tool call was emitted so far), emit response-metadata with a fresh id, then
the finish event carrying the running totals. -/
def finishBlock (modelId : String) (st : StreamState) (fr : String) :
    StreamState × List StreamEvent :=
  let closeEvents : List StreamEvent :=
    match st.textPartId with
    | some tid => [.textEnd tid]
    | none => []
  let finishReason : FinishReason :=
    if st.hasToolCalls then { unified := .toolCalls, raw := some fr }
    else mapGeminiFinishReason (some fr)
  ({ st with ctr := st.ctr + 1 },
    closeEvents ++ [.responseMetadata st.ctr modelId,
      .finish finishReason (mkUsage st.totalInputTokens st.totalOutputTokens)])

def chunkParts (c : Chunk) : List GPart := responseParts c

def chunkRawReason (c : Chunk) : Option String := responseRawReason c

def chunkTerminal (c : Chunk) : Bool := truthyFinish (chunkRawReason c)

/-- One iteration of `for await (const chunk of streamResponse)` (the abort
check excluded): usage update, part loop, then the terminal block when the
chunk carries a truthy finish reason. -/
def processChunk (modelId : String) (st : StreamState) (c : Chunk) :
    StreamState × List StreamEvent :=
  let st1 := updateUsage st c.usageMetadata
  let r := processParts st1 (chunkParts c)
  if chunkTerminal c then
    let fb := finishBlock modelId r.1 ((chunkRawReason c).getD "")
    (fb.1, r.2 ++ fb.2)
  else (r.1, r.2)

/-- Cooperative abort model: `abortAt = some a` means the signal reads aborted
at every checkpoint with index `≥ a` (the signal is monotone).  Checkpoint 0
is the check at the top of the ReadableStream `start` callback, checkpoint
`i + 1` the check before processing chunk `i`. -/
def abortedAtCheckpoint (abortAt : Option Nat) (i : Nat) : Bool :=
  match abortAt with
  | some a => decide (a ≤ i)
  | none => false

def runStreamGo (modelId : String) (abortAt : Option Nat) :
    StreamState → Nat → List Chunk → StreamState × List StreamEvent × Option StreamFailure
  | st, _, [] => (st, [], none)
  | st, i, c :: cs =>
    if abortedAtCheckpoint abortAt i then (st, [], some .aborted)
    else
      let r := processChunk modelId st c
      let rest := runStreamGo modelId abortAt r.1 (i + 1) cs
      (rest.1, r.2 ++ rest.2.1, rest.2.2)

/-- The event sequence produced by the ReadableStream `start` body of
`doStream` (lines 656-813): abort check, `stream-start` with the request's
warnings, then the chunk loop.  A `none` failure component models
`controller.close()`. -/
def runStream (modelId : String) (abortAt : Option Nat) (warnings : List Warning)
    (chunks : List Chunk) : List StreamEvent × Option StreamFailure :=
  if abortedAtCheckpoint abortAt 0 then ([], some .aborted)
  else
    let r := runStreamGo modelId abortAt initStreamState 1 chunks
    (.streamStart warnings :: r.2.1, r.2.2)

def isToolCallEvent : StreamEvent → Bool
  | .toolCall _ _ _ _ => true
  | _ => false

def isTextStartEvent : StreamEvent → Bool
  | .textStart _ => true
  | _ => false

def isTextEndEvent : StreamEvent → Bool
  | .textEnd _ => true
  | _ => false

def isFinishEvent : StreamEvent → Bool
  | .finish _ _ => true
  | _ => false

/-- The text-block id an event carries, when it is a text lifecycle event. -/
def eventTextId : StreamEvent → Option Nat
  | .textStart i => some i
  | .textDelta i _ => some i
  | .textEnd i => some i
  | _ => none

/-- Walk the event list carrying "a tool-call event occurred earlier"; every
finish event met on the way must be forced to `tool-calls` exactly when that
flag is set, and must carry the backend's raw reason (mapped through
`mapGeminiFinishReason` when not forced).  `rawOk` constrains where the raw
string can come from. -/
def FinishEventsOk (rawOk : String → Prop) : Bool → List StreamEvent → Prop
  | _, [] => True
  | tb, e :: rest =>
    (∀ fr u, e = .finish fr u →
      ((fr.unified = .toolCalls ↔ tb = true) ∧
        ∃ s, fr.raw = some s ∧ rawOk s ∧
          (tb = false → fr = mapGeminiFinishReason (some s)))) ∧
    FinishEventsOk rawOk (tb || isToolCallEvent e) rest

/-- Payload of a file part: an external URL reference, a pre-encoded base64
string, raw bytes (Uint8Array), or any other shape. -/
inductive FileData where
  | url (href : String)
  | base64 (data : String)
  | bytes (data : List Nat)
  | unsupportedShape

def base64Alphabet : List Char :=
  "ABCDEFGHIJKLMNOPQRSTUVWXYZabcdefghijklmnopqrstuvwxyz0123456789+/".toList

def base64Digit (n : Nat) : Char := base64Alphabet.getD n 'A'

/-- `Buffer.from(bytes).toString('base64')`. -/
def base64Encode : List Nat → String
  | [] => ""
  | [b0] =>
    String.mk [base64Digit (b0 / 4 % 64), base64Digit (b0 % 4 * 16)] ++ "=="
  | [b0, b1] =>
    String.mk [base64Digit (b0 / 4 % 64), base64Digit (b0 % 4 * 16 + b1 / 16 % 16),
      base64Digit (b1 % 16 * 4)] ++ "="
  | b0 :: b1 :: b2 :: rest =>
    String.mk [base64Digit (b0 / 4 % 64), base64Digit (b0 % 4 * 16 + b1 / 16 % 16),
      base64Digit (b1 % 16 * 4 + b2 / 64 % 4), base64Digit (b2 % 64)] ++ base64Encode rest

/-- Mapping errors of the message mapper.  Messages in the source:
`unsupportedFileType mt` is "Unsupported file type: " followed by the mime
type; `urlFilesNotSupported` is "URL files are not supported by Gemini CLI
Core. Please provide base64-encoded data."; `unsupportedFileFormat` is
"Unsupported file format". -/
inductive MapError where
  | unsupportedFileType (mediaType : String)
  | urlFilesNotSupported
  | unsupportedFileFormat
deriving DecidableEq, Repr

/-- A mapped backend request part. -/
inductive ReqPart where
  | text (s : String)
  | inlineData (mimeType : String) (data : String)
  | functionCall (name : String) (args : Json) (thoughtSignature : Option String)

/-- `part.mediaType || 'application/octet-stream'` (an empty string is falsy). -/
def mediaTypeOrDefault (mt : Option String) : String :=
  match mt with
  | some s => if s = "" then "application/octet-stream" else s
  | none => "application/octet-stream"

/-- `startsWith`, written over the character lists so that it is
kernel-computable. -/
def jsStartsWith (s pre : String) : Bool := pre.data.isPrefixOf s.data

/-- The supported mime-type families. -/
def supportedMediaType (mt : String) : Bool :=
  jsStartsWith mt "image/" || jsStartsWith mt "audio/" || jsStartsWith mt "video/" ||
    mt == "application/pdf"

/-- `mapFilePart`: URL payloads rejected, strings passed through as base64,
bytes base64-encoded, anything else a format error. -/
def mapFilePart (data : FileData) (mediaType : Option String) : Except MapError ReqPart :=
  match data with
  | .url _ => .error .urlFilesNotSupported
  | .base64 s => .ok (.inlineData (mediaTypeOrDefault mediaType) s)
  | .bytes bs => .ok (.inlineData (mediaTypeOrDefault mediaType) (base64Encode bs))
  | .unsupportedShape => .error .unsupportedFileFormat

/-- Parts of a user message (AI SDK v3 user content). -/
inductive UserPart where
  | text (s : String)
  | file (data : FileData) (mediaType : Option String)

/-- `mapUserMessage`: text parts pass through; a file part is admitted only
for the four supported mime-type families, otherwise the mapping throws
"Unsupported file type" naming the mime type. -/
def mapUserMessage : List UserPart → Except MapError (List ReqPart)
  | [] => .ok []
  | .text s :: rest =>
    match mapUserMessage rest with
    | .ok ps => .ok (.text s :: ps)
    | .error e => .error e
  | .file d mt :: rest =>
    let mediaType := mediaTypeOrDefault mt
    if supportedMediaType mediaType then
      match mapFilePart d mt with
      | .ok fp =>
        match mapUserMessage rest with
        | .ok ps => .ok (fp :: ps)
        | .error e => .error e
      | .error e => .error e
    else .error (.unsupportedFileType mediaType)

/-- Parts of an assistant message (AI SDK v3 assistant content; file parts
are part of the SDK's assistant content model). -/
inductive AssistantPart where
  | text (s : String)
  | toolCall (toolName : String) (input : Option Json) (thoughtSignature : Option String)
  | file (data : FileData) (mediaType : Option String)

/-- `mapAssistantMessage`: the switch handles only `text` and `tool-call`;
every other part kind (notably `file`) falls through the switch and is
dropped.  The function never throws; the `Except` return type mirrors
`mapUserMessage` and is always `ok`. -/
def mapAssistantMessage : List AssistantPart → Except MapError (List ReqPart)
  | [] => .ok []
  | .text s :: rest =>
    match mapAssistantMessage rest with
    | .ok ps => .ok (.text s :: ps)
    | .error e => .error e
  | .toolCall name input sig :: rest =>
    match mapAssistantMessage rest with
    | .ok ps => .ok (.functionCall name (input.getD (.jsObj .nil)) sig :: ps)
    | .error e => .error e
  | .file _ _ :: rest => mapAssistantMessage rest

/-- A function-call (tool-call) part: carries a functionCall and no text. -/
def isToolCallPart (p : GPart) : Bool :=
  p.functionCall.isSome && p.text == none

/-- Claim C2 as stated: any tool-call part anywhere in the backend response
forces the unified finish reason to `tool-calls`, for the non-streaming
result and for every finish event of the stream alike. -/
def claimC2 : Prop :=
  (∀ (options : CallOptions) (settings : ModelSettings) (response : GenResponse),
    (∃ p ∈ responseParts response, isToolCallPart p = true) →
    (doGenerateModel options settings response).finishReason.unified = .toolCalls) ∧
  (∀ (modelId : String) (warnings : List Warning) (chunks : List Chunk),
    (∃ c ∈ chunks, ∃ p ∈ chunkParts c, isToolCallPart p = true) →
    ∀ fr u, StreamEvent.finish fr u ∈ (runStream modelId none warnings chunks).1 →
      fr.unified = .toolCalls)

/-- Claim C3 as stated: omitted usage metadata (or omitted counts) yields
`unknown` (absent) totals, never zero. -/
def claimC3 : Prop :=
  (∀ (options : CallOptions) (settings : ModelSettings) (response : GenResponse),
    response.usageMetadata.bind (fun u => u.promptTokenCount) = none →
    (doGenerateModel options settings response).usage.inputTokens.total = none) ∧
  (∀ (options : CallOptions) (settings : ModelSettings) (response : GenResponse),
    response.usageMetadata.bind (fun u => u.candidatesTokenCount) = none →
    (doGenerateModel options settings response).usage.outputTokens.total = none) ∧
  (∀ (modelId : String) (warnings : List Warning) (chunks : List Chunk),
    (∀ c ∈ chunks, c.usageMetadata = none) →
    ∀ fr u, StreamEvent.finish fr u ∈ (runStream modelId none warnings chunks).1 →
      u.inputTokens.total = none ∧ u.outputTokens.total = none)

def thinkingOutEmpty (t : ThinkingConfigOut) : Prop :=
  t.thinkingLevel = none ∧ t.thinkingBudget = none ∧ t.includeThoughts = none

/-- Claim C6 as stated: whenever the merged reasoning configuration is empty
(including the case of an empty source object) the generation config omits
the thinking block entirely. -/
def claimC6 : Prop :=
  ∀ (options : CallOptions) (settings : ModelSettings),
    (∀ t, mergeThinkingConfig settings.thinkingConfig
        (effectiveOptionsThinking options.thinkingConfig) = some t →
      thinkingOutEmpty (buildThinkingConfig t)) →
    (prepareGenerationConfig options settings).1.thinkingConfig = none

/-- Claim C7 as stated: the cleaner is idempotent and its output contains no
banned key at any nesting depth. -/
def claimC7 : Prop :=
  (∀ s : Json, jsClean (jsClean s) = jsClean s) ∧
  (∀ (s : Json) (k : String), k ∈ bannedKeys → deepContains k (jsClean s) = false)

def userPartBadFile : UserPart → Bool
  | .file _ mt => !(supportedMediaType (mediaTypeOrDefault mt))
  | _ => false

def assistantPartBadFile : AssistantPart → Bool
  | .file _ mt => !(supportedMediaType (mediaTypeOrDefault mt))
  | _ => false

/-- Claim C8 as stated: in user and assistant messages alike, a file part
with an unsupported media type raises a mapping error naming the mime type,
and no file part is ever silently dropped (a successful mapping keeps one
output part per input part). -/
def claimC8 : Prop :=
  (∀ parts : List UserPart, (∃ p ∈ parts, userPartBadFile p = true) →
    ∃ mt, mapUserMessage parts = .error (.unsupportedFileType mt) ∧
      supportedMediaType mt = false) ∧
  (∀ parts : List AssistantPart, (∃ p ∈ parts, assistantPartBadFile p = true) →
    ∃ e, mapAssistantMessage parts = .error e) ∧
  (∀ (parts : List UserPart) (res : List ReqPart),
    mapUserMessage parts = .ok res → res.length = parts.length) ∧
  (∀ (parts : List AssistantPart) (res : List ReqPart),
    mapAssistantMessage parts = .ok res → res.length = parts.length)

/-- Claim C10 as stated: per stream at most one text-start, at most one
text-end, and a single shared block id across all text lifecycle events. -/
def claimC10 : Prop :=
  ∀ (modelId : String) (warnings : List Warning) (chunks : List Chunk),
    ((runStream modelId none warnings chunks).1.countP isTextStartEvent ≤ 1) ∧
    ((runStream modelId none warnings chunks).1.countP isTextEndEvent ≤ 1) ∧
    (∀ e1 ∈ (runStream modelId none warnings chunks).1,
      ∀ e2 ∈ (runStream modelId none warnings chunks).1,
      ∀ i1 i2, eventTextId e1 = some i1 → eventTextId e2 = some i2 → i1 = i2)

/-- The part the non-streaming finish reason tests: some part fires the
functionCall branch. -/
def responseFiresToolCall (r : GenResponse) : Bool :=
  (responseParts r).any partFiresToolCall

theorem cleanFieldsGo_cons (k : String) (v : Json) (tl : JsonObj) :
    cleanFieldsGo (.cons k v tl) =
      if k ∈ bannedKeys then cleanFieldsGo tl
      else .cons k (cleanVal k v) (cleanFieldsGo tl) := by
  cases v <;> simp only [cleanFieldsGo, cleanVal]

theorem cleanIndexedGo_cons (i : Nat) (h : Json) (t : JsonArr) :
    cleanIndexedGo i (.cons h t) =
      if toString i ∈ bannedKeys then cleanIndexedGo (i + 1) t
      else .cons (toString i) (cleanVal (toString i) h) (cleanIndexedGo (i + 1) t) := by
  cases h <;> simp only [cleanIndexedGo, cleanVal]

/-- The dedicated traversal of the array-spread case coincides with running the
generic field pass over the index-keyed entries of the spread. -/
theorem cleanIndexedGo_eq_indexFields :
    ∀ (i : Nat) (xs : JsonArr), cleanIndexedGo i xs = cleanFieldsGo (indexFields i xs)
  | _, .nil => rfl
  | i, .cons h t => by
    rw [indexFields, cleanFieldsGo_cons, cleanIndexedGo_cons,
      cleanIndexedGo_eq_indexFields (i + 1) t]

/-- Evaluation sanity check for the cleaner on a small schema. -/
theorem jsClean_sample_eval :
    jsClean (.jsObj (.cons "$schema" (.jsStr "x")
      (.cons "properties" (.jsObj (.cons "a" (.jsObj (.cons "$ref" (.jsStr "r") .nil)) .nil)) .nil)))
    = .jsObj (.cons "properties" (.jsObj (.cons "a" (.jsObj .nil) .nil))
        (.cons "type" (.jsStr "object") .nil)) := rfl

theorem noBannedFields_cons (k : String) (v : Json) (tl : JsonObj) :
    noBannedFields (.cons k v tl) =
      (!(bannedKeys.contains k) && alongVal k v && noBannedFields tl) := by
  cases v <;> simp only [noBannedFields, alongVal]

theorem lookup_push_ne (k k2 : String) (v : Json) (hne : k2 ≠ k) :
    ∀ fs : JsonObj, (fs.push k2 v).lookup k = fs.lookup k
  | .nil => by simp [JsonObj.push, JsonObj.lookup, hne]
  | .cons k3 v3 tl => by
    simp only [JsonObj.push, JsonObj.lookup]
    by_cases h : k3 = k
    · simp [h]
    · simp [h, lookup_push_ne k k2 v hne tl]

theorem hasKey_push_self (k : String) (v : Json) :
    ∀ fs : JsonObj, (fs.push k v).hasKey k = true
  | .nil => by simp [JsonObj.push, JsonObj.hasKey]
  | .cons k3 v3 tl => by
    simp only [JsonObj.push, JsonObj.hasKey, hasKey_push_self k v tl, Bool.or_true]

/-- `addTypeIfNeeded` is idempotent. -/
theorem addTypeIfNeeded_idem (fs : JsonObj) :
    addTypeIfNeeded (addTypeIfNeeded fs) = addTypeIfNeeded fs := by
  unfold addTypeIfNeeded
  cases hl : fs.lookup "properties" with
  | none => simp [hl]
  | some v =>
    by_cases hc : jsTruthy v && !(fs.hasKey "type")
    · simp only [hl, hc, if_true]
      have h1 : (fs.push "type" (.jsStr "object")).lookup "properties" = some v := by
        rw [lookup_push_ne "properties" "type" _ (by decide) fs, hl]
      simp [h1, hasKey_push_self]
    · simp [hl, hc]

/-- A pass of `cleanFieldsGo` commutes with appending the `type: "object"`
field (the appended key is neither banned nor specially treated). -/
theorem cleanFieldsGo_push_type :
    ∀ fs : JsonObj,
      cleanFieldsGo (fs.push "type" (.jsStr "object")) =
        (cleanFieldsGo fs).push "type" (.jsStr "object")
  | .nil => rfl
  | .cons k v tl => by
    simp only [JsonObj.push, cleanFieldsGo_cons]
    by_cases hb : k ∈ bannedKeys
    · simp [hb, cleanFieldsGo_push_type tl]
    · simp [hb, JsonObj.push, cleanFieldsGo_push_type tl]

/-- On a fixed point of the field pass, appending the implied `type` field and
re-running the pass changes nothing. -/
theorem cleanFieldsGo_addType (X : JsonObj) (hX : cleanFieldsGo X = X) :
    cleanFieldsGo (addTypeIfNeeded X) = addTypeIfNeeded X := by
  unfold addTypeIfNeeded
  cases hl : X.lookup "properties" with
  | none => simpa [hl] using hX
  | some v =>
    by_cases hc : jsTruthy v && !(X.hasKey "type")
    · simp only [hl, hc, if_true]
      rw [cleanFieldsGo_push_type X, hX]
    · simp [hl, hc, hX]

mutual

/-- `cleanJsonSchema` is idempotent. -/
theorem jsClean_idem : ∀ j : Json, jsClean (jsClean j) = jsClean j
  | .null => rfl
  | .jsBool _ => rfl
  | .jsNum _ => rfl
  | .jsStr _ => rfl
  | .jsObj fs => by
    simp only [jsClean]
    rw [cleanFieldsGo_addType (cleanFieldsGo fs) (cleanFieldsGo_stable fs),
      addTypeIfNeeded_idem]
  | .jsArr xs => by
    simp only [jsClean]
    rw [cleanFieldsGo_addType (cleanIndexedGo 0 xs) (cleanIndexedGo_stable 0 xs),
      addTypeIfNeeded_idem]
termination_by j => (sizeOf j, 0)

theorem cleanVal_idem : ∀ (k : String) (v : Json), cleanVal k (cleanVal k v) = cleanVal k v
  | k, v => by
    by_cases hp : k = "properties"
    · subst hp
      cases v with
      | jsObj ps => simp [cleanVal, cleanEachVal_idem ps]
      | jsArr xs => simp [cleanVal, cleanEachVal_of_cleanEachIndexed 0 xs]
      | null => simp [cleanVal]
      | jsBool b => simp [cleanVal]
      | jsNum n => simp [cleanVal]
      | jsStr s => simp [cleanVal]
    · by_cases hi : k = "items"
      · subst hi
        by_cases ht : jsTruthy v
        · by_cases ht2 : jsTruthy (jsClean v) <;>
            simp [cleanVal, ht, ht2, jsClean_idem v]
        · simp [cleanVal, ht]
      · by_cases ha : k = "additionalProperties"
        · subst ha
          by_cases ht : jsTruthy v && jsTypeofObject v
          · by_cases ht2 : jsTruthy (jsClean v) && jsTypeofObject (jsClean v) <;>
              simp [cleanVal, hp, ht, ht2, jsClean_idem v]
          · simp [cleanVal, hp, ht]
        · by_cases ho : k = "allOf" ∨ k = "anyOf" ∨ k = "oneOf"
          · cases v with
            | jsArr xs => simp [cleanVal, hp, hi, ha, ho, mapCleanArr_idem xs]
            | null => simp [cleanVal, hp, hi, ha, ho]
            | jsBool b => simp [cleanVal, hp, hi, ha, ho]
            | jsNum n => simp [cleanVal, hp, hi, ha, ho]
            | jsStr s => simp [cleanVal, hp, hi, ha, ho]
            | jsObj ps => simp [cleanVal, hp, hi, ha, ho]
          · simp [cleanVal, hp, hi, ha, ho]
termination_by k v => (sizeOf v, 1)

theorem cleanEachVal_idem : ∀ fs : JsonObj, cleanEachVal (cleanEachVal fs) = cleanEachVal fs
  | .nil => rfl
  | .cons k v tl => by
    simp only [cleanEachVal]
    rw [jsClean_idem v, cleanEachVal_idem tl]
termination_by fs => (sizeOf fs, 0)

theorem cleanEachVal_of_cleanEachIndexed :
    ∀ (i : Nat) (xs : JsonArr), cleanEachVal (cleanEachIndexed i xs) = cleanEachIndexed i xs
  | _, .nil => rfl
  | i, .cons h t => by
    simp only [cleanEachIndexed, cleanEachVal]
    rw [jsClean_idem h, cleanEachVal_of_cleanEachIndexed (i + 1) t]
termination_by i xs => (sizeOf xs, 0)

theorem mapCleanArr_idem : ∀ xs : JsonArr, mapCleanArr (mapCleanArr xs) = mapCleanArr xs
  | .nil => rfl
  | .cons h t => by
    simp only [mapCleanArr]
    rw [jsClean_idem h, mapCleanArr_idem t]
termination_by xs => (sizeOf xs, 0)

theorem cleanFieldsGo_stable : ∀ fs : JsonObj, cleanFieldsGo (cleanFieldsGo fs) = cleanFieldsGo fs
  | .nil => rfl
  | .cons k v tl => by
    rw [cleanFieldsGo_cons]
    by_cases hb : k ∈ bannedKeys
    · rw [if_pos hb, cleanFieldsGo_stable tl]
    · rw [if_neg hb, cleanFieldsGo_cons, if_neg hb, cleanVal_idem k v, cleanFieldsGo_stable tl]
termination_by fs => (sizeOf fs, 2)

theorem cleanIndexedGo_stable :
    ∀ (i : Nat) (xs : JsonArr), cleanFieldsGo (cleanIndexedGo i xs) = cleanIndexedGo i xs
  | _, .nil => rfl
  | i, .cons h t => by
    rw [cleanIndexedGo_cons]
    by_cases hb : toString i ∈ bannedKeys
    · rw [if_pos hb, cleanIndexedGo_stable (i + 1) t]
    · rw [if_neg hb, cleanFieldsGo_cons, if_neg hb, cleanVal_idem (toString i) h,
        cleanIndexedGo_stable (i + 1) t]
termination_by i xs => (sizeOf xs, 2)

end

theorem noBannedAlong_of_not_truthy (v : Json) (h : jsTruthy v = false) :
    noBannedAlong v = true := by
  cases v <;> simp_all [jsTruthy, noBannedAlong]

theorem contains_banned_eq_false (k : String) (h : k ∉ bannedKeys) :
    bannedKeys.contains k = false := by
  simpa using h

theorem noBannedFields_push_type :
    ∀ X : JsonObj,
      noBannedFields (X.push "type" (.jsStr "object")) = noBannedFields X
  | .nil => by decide
  | .cons k v tl => by
    simp only [JsonObj.push, noBannedFields_cons, noBannedFields_push_type tl]

theorem noBannedFields_addType (X : JsonObj) :
    noBannedFields (addTypeIfNeeded X) = noBannedFields X := by
  unfold addTypeIfNeeded
  cases hl : X.lookup "properties" with
  | none => rfl
  | some v =>
    by_cases hc : jsTruthy v && !(X.hasKey "type")
    · simp [hc, noBannedFields_push_type X]
    · simp [hc]

mutual

/-- The output of `cleanJsonSchema` carries no banned key at any position the
function cleans recursively. -/
theorem noBannedAlong_clean : ∀ j : Json, noBannedAlong (jsClean j) = true
  | .null => rfl
  | .jsBool _ => rfl
  | .jsNum _ => rfl
  | .jsStr _ => rfl
  | .jsObj fs => by
    simp only [jsClean, noBannedAlong]
    rw [noBannedFields_addType, noBannedFields_cleanGo fs]
  | .jsArr xs => by
    simp only [jsClean, noBannedAlong]
    rw [noBannedFields_addType, noBannedFields_cleanIndexed 0 xs]
termination_by j => (sizeOf j, 0)

theorem alongVal_cleanVal : ∀ (k : String) (v : Json), alongVal k (cleanVal k v) = true
  | k, v => by
    by_cases hp : k = "properties"
    · subst hp
      cases v with
      | jsObj ps => simp [cleanVal, alongVal, allVals_cleanEachVal ps]
      | jsArr xs => simp [cleanVal, alongVal, allVals_cleanEachIndexed 0 xs]
      | null => simp [cleanVal, alongVal]
      | jsBool b => simp [cleanVal, alongVal]
      | jsNum n => simp [cleanVal, alongVal]
      | jsStr s => simp [cleanVal, alongVal]
    · by_cases hi : k = "items"
      · subst hi
        by_cases ht : jsTruthy v
        · simp [cleanVal, alongVal, ht, noBannedAlong_clean v]
        · simp [cleanVal, alongVal, ht,
            noBannedAlong_of_not_truthy v (by simpa using ht)]
      · by_cases ha : k = "additionalProperties"
        · subst ha
          by_cases ht : jsTruthy v && jsTypeofObject v
          · simp [cleanVal, alongVal, hp, ht, noBannedAlong_clean v]
          · cases v <;> simp_all [cleanVal, alongVal, jsTruthy, jsTypeofObject, noBannedAlong]
        · by_cases ho : k = "allOf" ∨ k = "anyOf" ∨ k = "oneOf"
          · cases v with
            | jsArr xs => simp [cleanVal, alongVal, hp, hi, ha, ho, allArr_mapClean xs]
            | null => simp [cleanVal, alongVal, hp, hi, ha, ho]
            | jsBool b => simp [cleanVal, alongVal, hp, hi, ha, ho]
            | jsNum n => simp [cleanVal, alongVal, hp, hi, ha, ho]
            | jsStr s => simp [cleanVal, alongVal, hp, hi, ha, ho]
            | jsObj ps => simp [cleanVal, alongVal, hp, hi, ha, ho]
          · simp [cleanVal, alongVal, hp, hi, ha, ho]
termination_by k v => (sizeOf v, 1)

theorem allVals_cleanEachVal : ∀ fs : JsonObj, allValsNoBanned (cleanEachVal fs) = true
  | .nil => rfl
  | .cons _ v tl => by
    simp only [cleanEachVal, allValsNoBanned]
    rw [noBannedAlong_clean v, allVals_cleanEachVal tl]
    rfl
termination_by fs => (sizeOf fs, 0)

theorem allVals_cleanEachIndexed :
    ∀ (i : Nat) (xs : JsonArr), allValsNoBanned (cleanEachIndexed i xs) = true
  | _, .nil => rfl
  | i, .cons h t => by
    simp only [cleanEachIndexed, allValsNoBanned]
    rw [noBannedAlong_clean h, allVals_cleanEachIndexed (i + 1) t]
    rfl
termination_by i xs => (sizeOf xs, 0)

theorem allArr_mapClean : ∀ xs : JsonArr, allArrNoBanned (mapCleanArr xs) = true
  | .nil => rfl
  | .cons h t => by
    simp only [mapCleanArr, allArrNoBanned]
    rw [noBannedAlong_clean h, allArr_mapClean t]
    rfl
termination_by xs => (sizeOf xs, 0)

theorem noBannedFields_cleanGo : ∀ fs : JsonObj, noBannedFields (cleanFieldsGo fs) = true
  | .nil => rfl
  | .cons k v tl => by
    rw [cleanFieldsGo_cons]
    by_cases hb : k ∈ bannedKeys
    · rw [if_pos hb, noBannedFields_cleanGo tl]
    · rw [if_neg hb, noBannedFields_cons, contains_banned_eq_false k hb,
        alongVal_cleanVal k v, noBannedFields_cleanGo tl]
      rfl
termination_by fs => (sizeOf fs, 2)

theorem noBannedFields_cleanIndexed :
    ∀ (i : Nat) (xs : JsonArr), noBannedFields (cleanIndexedGo i xs) = true
  | _, .nil => rfl
  | i, .cons h t => by
    rw [cleanIndexedGo_cons]
    by_cases hb : toString i ∈ bannedKeys
    · rw [if_pos hb, noBannedFields_cleanIndexed (i + 1) t]
    · rw [if_neg hb, noBannedFields_cons, contains_banned_eq_false (toString i) hb,
        alongVal_cleanVal (toString i) h, noBannedFields_cleanIndexed (i + 1) t]
      rfl
termination_by i xs => (sizeOf xs, 2)

end

/-- C9: for every streamed request whose cancellation token is signaled
before the stream machine runs, the stream fails with the cancellation error
and emits zero events — not even `stream-start`. -/
theorem c9_abort_before_first_chunk (modelId : String) (warnings : List Warning)
    (chunks : List Chunk) :
    runStream modelId (some 0) warnings chunks = ([], some .aborted) := rfl

/-- C1: for the two-chunk backend sequence (chunk 1: text "Hello"; chunk 2:
text ", world!" plus terminal STOP), whatever usage metadata the chunks carry,
the emitted events are exactly stream-start, text-start, the two deltas in
arrival order, text-end (same block id 0), response-metadata, finish — and
the finish usage equals the counts of the last chunk that carried usage
metadata: the second chunk's when it carries usage (first conjunct, replacing
whatever chunk 1 reported), else the first chunk's (second conjunct). -/
theorem c1_two_chunk_stream (modelId : String) (warnings : List Warning)
    (u1 : Option UsageMetadata) (p c : Nat) :
    (runStream modelId none warnings
      [{ candidate := some { parts := [{ text := some "Hello" }] }, usageMetadata := u1 },
        { candidate := some { parts := [{ text := some ", world!" }], finishReason := some "STOP" },
          usageMetadata := some { promptTokenCount := some p, candidatesTokenCount := some c } }] =
      ([.streamStart warnings, .textStart 0, .textDelta 0 "Hello", .textDelta 0 ", world!",
        .textEnd 0, .responseMetadata 1 modelId,
        .finish { unified := .stop, raw := some "STOP" } (mkUsage p c)], none)) ∧
    (runStream modelId none warnings
      [{ candidate := some { parts := [{ text := some "Hello" }] },
          usageMetadata := some { promptTokenCount := some p, candidatesTokenCount := some c } },
        { candidate := some { parts := [{ text := some ", world!" }], finishReason := some "STOP" },
          usageMetadata := none }] =
      ([.streamStart warnings, .textStart 0, .textDelta 0 "Hello", .textDelta 0 ", world!",
        .textEnd 0, .responseMetadata 1 modelId,
        .finish { unified := .stop, raw := some "STOP" } (mkUsage p c)], none)) := by
  refine ⟨?_, rfl⟩
  cases u1 <;> rfl

/-- C4: the response-format policy of `prepareGenerationConfig`: json without
schema gives plain text plus exactly the one `unsupported responseFormat`
warning; json with schema gives `application/json`, the schema forwarded
unmodified and no warning; anything else gives plain text and no warning. -/
theorem c4_json_mode_policy (options : CallOptions) (settings : ModelSettings) :
    (options.responseFormat = some { rtype := "json", schema := none } →
      (prepareGenerationConfig options settings).1.responseMimeType = "text/plain" ∧
      (prepareGenerationConfig options settings).1.responseJsonSchema = none ∧
      (prepareGenerationConfig options settings).2 = [responseFormatWarning] ∧
      responseFormatWarning.wtype = "unsupported" ∧
      responseFormatWarning.feature = "responseFormat") ∧
    (∀ s : Json, options.responseFormat = some { rtype := "json", schema := some s } →
      (prepareGenerationConfig options settings).2 = [] ∧
      (prepareGenerationConfig options settings).1.responseMimeType = "application/json" ∧
      (prepareGenerationConfig options settings).1.responseJsonSchema = some s) ∧
    ((match options.responseFormat with
      | some rf => rf.rtype ≠ "json"
      | none => True) →
      (prepareGenerationConfig options settings).1.responseMimeType = "text/plain" ∧
      (prepareGenerationConfig options settings).2 = []) := by
  refine ⟨?_, ?_, ?_⟩
  · intro h
    refine ⟨?_, ?_, ?_, rfl, rfl⟩ <;> simp [prepareGenerationConfig, h]
  · intro s h
    simp [prepareGenerationConfig, h]
  · intro h
    cases hrf : options.responseFormat with
    | none => simp [prepareGenerationConfig, hrf]
    | some rf =>
      rw [hrf] at h
      simp [prepareGenerationConfig, hrf, h]

/-- C5: with model-level defaults `{thinkingLevel: 'high'}` and call-time
override `{thinkingLevel: 'hihg'}` (unparseable) the effective thinking
config is `{thinkingLevel: HIGH}` — the invalid field is stripped before the
field-by-field merge rather than the whole override being discarded (second
conjunct: the override's other fields still win the merge). -/
theorem c5_invalid_level_stripped :
    ((prepareGenerationConfig
      { thinkingConfig := some { thinkingLevel := some (.str "hihg") } }
      { thinkingConfig := some { thinkingLevel := some (.str "high") } }).1.thinkingConfig =
      some { thinkingLevel := some .HIGH }) ∧
    ((prepareGenerationConfig
      { thinkingConfig := some { thinkingLevel := some (.str "hihg"), includeThoughts := some true } }
      { thinkingConfig := some { thinkingLevel := some (.str "high"), thinkingBudget := some 512 } }).1.thinkingConfig =
      some { thinkingLevel := some .HIGH, thinkingBudget := some 512, includeThoughts := some true }) := by
  constructor <;> decide

/-- C6 counterexample: with model settings `thinkingConfig: {}` (an empty
object) and no call-time override, the merge is empty, yet the generation
config carries an empty thinking object instead of omitting the block — an
empty object is truthy, so `settings || effective` succeeds. -/
theorem c6_counterexample : ¬ claimC6 := by
  intro h
  have hc := h {} { thinkingConfig := some {} }
    (fun t ht => by cases ht; exact ⟨rfl, rfl, rfl⟩)
  cases hc

/-- C6 amended: the generation config omits the thinking block exactly when
both sources are absent after the invalid-level validation (a present but
empty source object yields a present — possibly empty — thinking object). -/
theorem c6_amended (options : CallOptions) (settings : ModelSettings) :
    (prepareGenerationConfig options settings).1.thinkingConfig = none ↔
      (settings.thinkingConfig = none ∧
        effectiveOptionsThinking options.thinkingConfig = none) := by
  cases hs : settings.thinkingConfig with
  | none =>
    cases ho : effectiveOptionsThinking options.thinkingConfig with
    | none => simp [prepareGenerationConfig, mergeThinkingConfig, hs, ho]
    | some o => simp [prepareGenerationConfig, mergeThinkingConfig, hs, ho]
  | some s =>
    cases ho : effectiveOptionsThinking options.thinkingConfig with
    | none => simp [prepareGenerationConfig, mergeThinkingConfig, hs, ho]
    | some o => simp [prepareGenerationConfig, mergeThinkingConfig, hs, ho]

/-- C7 counterexample: the cleaner does not recurse under keywords outside
its fixed list, so a `$ref` nested under `not` survives at depth — the
"no banned key at any nesting depth" half of the claim is false. -/
theorem c7_counterexample : ¬ claimC7 := by
  intro h
  have h2 := h.2 (.jsObj (.cons "type" (.jsStr "object")
    (.cons "not" (.jsObj (.cons "$ref" (.jsStr "#/defs/x") .nil)) .nil))) "$ref" (by decide)
  revert h2
  decide

/-- C7 amended: `cleanJsonSchema` is idempotent, and its output carries no
`$schema`/`$ref`/`$defs`/`definitions` key at the top level nor anywhere
reachable through the recursively-cleaned positions (`properties` values,
`items`, `additionalProperties`, elements of array-valued
`allOf`/`anyOf`/`oneOf`); keys nested under other keywords are untouched. -/
theorem c7_amended :
    (∀ s : Json, jsClean (jsClean s) = jsClean s) ∧
    (∀ s : Json, noBannedAlong (jsClean s) = true) :=
  ⟨jsClean_idem, noBannedAlong_clean⟩

/-- C3 counterexample: a response with no usage metadata yields token totals
of zero (`|| 0`), not the absent/"unknown" marker. -/
theorem c3_counterexample : ¬ claimC3 := by
  intro h
  have h1 := h.1 {} {}
    { candidate := some { parts := [{ text := some "hi" }], finishReason := some "STOP" } } rfl
  exact absurd h1 (by decide)

/-- C8 counterexample: `mapAssistantMessage` has no case for file parts, so
an assistant file part with an unsupported media type is silently dropped
(successful empty mapping) instead of raising a mapping error. -/
theorem c8_counterexample : ¬ claimC8 := by
  intro h
  have h2 := h.2.1 [.file (.base64 "QUJD") (some "text/csv")]
    ⟨.file (.base64 "QUJD") (some "text/csv"), by simp, by decide⟩
  rcases h2 with ⟨e, he⟩
  rw [show mapAssistantMessage [.file (.base64 "QUJD") (some "text/csv")] = .ok [] from rfl] at he
  cases he

/-- C2 counterexample: when a tool-call part arrives only in a chunk after
the chunk that carried the terminal signal, the finish event has already been
emitted with the mapped backend reason (`stop`), not `tool-calls`, although a
tool-call part occurs in the backend response. -/
theorem c2_counterexample : ¬ claimC2 := by
  intro h
  have hmem : StreamEvent.finish { unified := .stop, raw := some "STOP" } (mkUsage 0 0) ∈
      (runStream "m" none []
        [{ candidate := some { parts := [], finishReason := some "STOP" } },
          { candidate := some { parts :=
              [{ functionCall := some { name := some "f", args := none } }] } }]).1 := by
    rw [show (runStream "m" none []
      [{ candidate := some { parts := [], finishReason := some "STOP" } },
        { candidate := some { parts :=
            [{ functionCall := some { name := some "f", args := none } }] } }]).1 =
      [.streamStart [], .responseMetadata 0 "m",
        .finish { unified := .stop, raw := some "STOP" } (mkUsage 0 0),
        .toolCall 1 "f" (.jsObj .nil) none] from rfl]
    exact List.Mem.tail _ (List.Mem.tail _ (List.Mem.head _))
  have h2 := h.2 "m" []
    [{ candidate := some { parts := [], finishReason := some "STOP" } },
      { candidate := some { parts :=
          [{ functionCall := some { name := some "f", args := none } }] } }]
    ⟨_, List.Mem.tail _ (List.Mem.head _),
      { functionCall := some { name := some "f", args := none } }, List.Mem.head _, by decide⟩
    _ _ hmem
  exact absurd h2 (by decide)

/-- C10 counterexample: with two chunks both carrying a terminal signal (the
first also carrying text), the text block id is never reset, so the terminal
block of the second chunk emits a second `text-end` — the stream contains two
text-end events. -/
theorem c10_counterexample : ¬ claimC10 := by
  intro h
  exact absurd (h "m" []
    [{ candidate := some { parts := [{ text := some "a" }], finishReason := some "STOP" } },
      { candidate := some { parts := [], finishReason := some "STOP" } }]).2.1
    (by decide)

theorem mapGeminiFinishReason_raw (x : Option String) :
    (mapGeminiFinishReason x).raw = x := by
  unfold mapGeminiFinishReason
  split <;> rfl

theorem mapGeminiFinishReason_ne_toolCalls (x : Option String) :
    (mapGeminiFinishReason x).unified ≠ .toolCalls := by
  unfold mapGeminiFinishReason
  split <;> simp

/-- The `hasToolCalls` flag of the non-streaming content loop is exactly
"some part took the functionCall branch". -/
theorem buildContent_hasToolCalls :
    ∀ (ps : List GPart) (ctr : Nat), (buildContent ctr ps).2.2 = ps.any partFiresToolCall
  | [], _ => rfl
  | p :: rest, ctr => by
    by_cases ht : textTruthy p
    · simp [buildContent, ht, partFiresToolCall, buildContent_hasToolCalls rest ctr]
    · cases hfc : p.functionCall with
      | some fc => simp [buildContent, ht, hfc, partFiresToolCall]
      | none =>
        simp [buildContent, ht, hfc, partFiresToolCall, buildContent_hasToolCalls rest ctr]

/-- Plumbing facts of the part loop: token totals untouched, no finish and no
text-end events, and the `hasToolCalls` flag tracks emitted tool-call
events. -/
theorem processParts_plumbing :
    ∀ (ps : List GPart) (st : StreamState),
      (processParts st ps).1.totalInputTokens = st.totalInputTokens ∧
      (processParts st ps).1.totalOutputTokens = st.totalOutputTokens ∧
      (∀ fr u, StreamEvent.finish fr u ∉ (processParts st ps).2) ∧
      ((processParts st ps).2.countP isTextEndEvent = 0) ∧
      (processParts st ps).1.hasToolCalls =
        (st.hasToolCalls || (processParts st ps).2.any isToolCallEvent)
  | [], st => by simp [processParts]
  | p :: rest, st => by
    by_cases ht : textTruthy p
    · cases hid : st.textPartId with
      | none =>
        have ih := processParts_plumbing rest
          { st with ctr := st.ctr + 1, textPartId := some st.ctr }
        simp [processParts, processPart, ht, hid, ih.1, ih.2.1, ih.2.2.1, ih.2.2.2.1,
          ih.2.2.2.2, isToolCallEvent, List.countP_cons, isTextEndEvent]
      | some tid =>
        have ih := processParts_plumbing rest st
        simp [processParts, processPart, ht, hid, ih.1, ih.2.1, ih.2.2.1, ih.2.2.2.1,
          ih.2.2.2.2, isToolCallEvent, List.countP_cons, isTextEndEvent]
    · cases hfc : p.functionCall with
      | some fc =>
        have ih := processParts_plumbing rest
          { st with ctr := st.ctr + 1, hasToolCalls := true }
        simp [processParts, processPart, ht, hfc, ih.1, ih.2.1, ih.2.2.1, ih.2.2.2.1,
          ih.2.2.2.2, isToolCallEvent, List.countP_cons, isTextEndEvent]
      | none =>
        have ih := processParts_plumbing rest st
        simp [processParts, processPart, ht, hfc, ih.1, ih.2.1, ih.2.2.1, ih.2.2.2.1,
          ih.2.2.2.2]

theorem finishEventsOk_append (rawOk : String → Prop) :
    ∀ (A B : List StreamEvent) (tb : Bool),
      FinishEventsOk rawOk tb (A ++ B) ↔
        (FinishEventsOk rawOk tb A ∧ FinishEventsOk rawOk (tb || A.any isToolCallEvent) B)
  | [], B, tb => by simp [FinishEventsOk]
  | e :: A, B, tb => by
    have ih := finishEventsOk_append rawOk A B (tb || isToolCallEvent e)
    have hor : ((tb || isToolCallEvent e) || A.any isToolCallEvent) =
        (tb || (e :: A).any isToolCallEvent) := by
      simp [List.any_cons, Bool.or_assoc]
    constructor
    · intro h
      refine ⟨⟨h.1, (ih.mp h.2).1⟩, ?_⟩
      rw [← hor]
      exact (ih.mp h.2).2
    · intro h
      refine ⟨h.1.1, ih.mpr ⟨h.1.2, ?_⟩⟩
      rw [hor]
      exact h.2

theorem finishEventsOk_mono (rawOk1 rawOk2 : String → Prop)
    (h : ∀ s, rawOk1 s → rawOk2 s) :
    ∀ (evs : List StreamEvent) (tb : Bool),
      FinishEventsOk rawOk1 tb evs → FinishEventsOk rawOk2 tb evs
  | [], _, _ => trivial
  | e :: evs, tb, hok => by
    refine ⟨fun fr u he => ?_, finishEventsOk_mono rawOk1 rawOk2 h evs _ hok.2⟩
    obtain ⟨h1, s, h2, h3, h4⟩ := hok.1 fr u he
    exact ⟨h1, s, h2, h s h3, h4⟩

theorem finishEventsOk_of_no_finish (rawOk : String → Prop) :
    ∀ (evs : List StreamEvent) (tb : Bool),
      (∀ fr u, StreamEvent.finish fr u ∉ evs) → FinishEventsOk rawOk tb evs
  | [], _, _ => trivial
  | e :: evs, tb, hnf =>
    ⟨fun fr u he => absurd (he ▸ List.Mem.head evs) (hnf fr u),
      finishEventsOk_of_no_finish rawOk evs _
        (fun fr u hm => hnf fr u (List.Mem.tail _ hm))⟩

/-- The terminal block emits exactly the forced-or-mapped finish reason. -/
theorem finishBlock_finishEventsOk (modelId : String) (st : StreamState) (s : String)
    (rawOk : String → Prop) (hraw : rawOk s) :
    FinishEventsOk rawOk st.hasToolCalls (finishBlock modelId st s).2 := by
  have hfin : ∀ tb, tb = st.hasToolCalls →
      FinishEventsOk rawOk tb
        [.responseMetadata st.ctr modelId,
          .finish (if st.hasToolCalls then { unified := .toolCalls, raw := some s }
            else mapGeminiFinishReason (some s)) (mkUsage st.totalInputTokens st.totalOutputTokens)] := by
    intro tb htb
    refine ⟨fun fr u he => (by cases he), fun fr u he => ?_, trivial⟩
    cases he
    simp only [isToolCallEvent, Bool.or_false]
    by_cases htc : st.hasToolCalls
    · rw [if_pos htc]
      refine ⟨⟨fun _ => htb.trans htc, fun _ => rfl⟩, s, rfl, hraw, fun hfalse => ?_⟩
      rw [htb, htc] at hfalse
      cases hfalse
    · rw [if_neg htc]
      refine ⟨iff_of_false (mapGeminiFinishReason_ne_toolCalls (some s)) ?_,
        s, mapGeminiFinishReason_raw (some s), hraw, fun _ => rfl⟩
      intro hb
      exact htc (htb ▸ hb)
  unfold finishBlock
  cases hid : st.textPartId with
  | none => exact hfin st.hasToolCalls rfl
  | some tid =>
    simp only [List.singleton_append]
    refine ⟨fun fr u he => (by cases he), ?_⟩
    exact hfin (st.hasToolCalls || isToolCallEvent (.textEnd tid)) (by simp [isToolCallEvent])

theorem updateUsage_fields (st : StreamState) (um : Option UsageMetadata) :
    (updateUsage st um).hasToolCalls = st.hasToolCalls ∧
    (updateUsage st um).textPartId = st.textPartId ∧
    (updateUsage st um).ctr = st.ctr := by
  cases um <;> simp [updateUsage]

theorem finishBlock_state (modelId : String) (st : StreamState) (s : String) :
    (finishBlock modelId st s).1.hasToolCalls = st.hasToolCalls ∧
    (finishBlock modelId st s).1.textPartId = st.textPartId ∧
    (finishBlock modelId st s).1.totalInputTokens = st.totalInputTokens ∧
    (finishBlock modelId st s).1.totalOutputTokens = st.totalOutputTokens := by
  unfold finishBlock
  exact ⟨rfl, rfl, rfl, rfl⟩

theorem finishBlock_no_toolCall (modelId : String) (st : StreamState) (s : String) :
    (finishBlock modelId st s).2.any isToolCallEvent = false := by
  unfold finishBlock
  cases st.textPartId <;> simp [isToolCallEvent]

theorem truthyFinish_getD (fr : Option String) (h : truthyFinish fr = true) :
    fr = some (fr.getD "") := by
  cases fr <;> simp_all [truthyFinish]

theorem processChunk_finishEventsOk (modelId : String) (c : Chunk) (st : StreamState) :
    FinishEventsOk (fun s => chunkRawReason c = some s) st.hasToolCalls
      (processChunk modelId st c).2 ∧
    (processChunk modelId st c).1.hasToolCalls =
      (st.hasToolCalls || (processChunk modelId st c).2.any isToolCallEvent) := by
  have hu := updateUsage_fields st c.usageMetadata
  have hp := processParts_plumbing (chunkParts c) (updateUsage st c.usageMetadata)
  unfold processChunk
  cases hterm : chunkTerminal c with
  | false =>
    rw [if_neg Bool.false_ne_true]
    exact ⟨finishEventsOk_of_no_finish _ _ _ hp.2.2.1, by rw [hp.2.2.2.2, hu.1]⟩
  | true =>
    rw [if_pos rfl]
    have hflag : (processParts (updateUsage st c.usageMetadata) (chunkParts c)).1.hasToolCalls =
        (st.hasToolCalls ||
          (processParts (updateUsage st c.usageMetadata) (chunkParts c)).2.any isToolCallEvent) := by
      rw [hp.2.2.2.2, hu.1]
    constructor
    · rw [finishEventsOk_append]
      refine ⟨finishEventsOk_of_no_finish _ _ _ hp.2.2.1, ?_⟩
      rw [← hflag]
      have hfb := finishBlock_finishEventsOk modelId
        (processParts (updateUsage st c.usageMetadata) (chunkParts c)).1
        ((chunkRawReason c).getD "") (fun s => chunkRawReason c = some s)
        (truthyFinish_getD (chunkRawReason c) hterm)
      exact hfb
    · rw [List.any_append, (finishBlock_state modelId _ _).1, hflag,
        finishBlock_no_toolCall, Bool.or_false]

theorem runStreamGo_finishEventsOk (modelId : String) :
    ∀ (chunks : List Chunk) (st : StreamState) (i : Nat),
      FinishEventsOk (fun s => ∃ c ∈ chunks, chunkRawReason c = some s)
        st.hasToolCalls (runStreamGo modelId none st i chunks).2.1
  | [], _, _ => trivial
  | c :: cs, st, i => by
    have hch := processChunk_finishEventsOk modelId c st
    have ih := runStreamGo_finishEventsOk modelId cs (processChunk modelId st c).1 (i + 1)
    show FinishEventsOk _ _ ((processChunk modelId st c).2 ++
      (runStreamGo modelId none (processChunk modelId st c).1 (i + 1) cs).2.1)
    rw [finishEventsOk_append]
    constructor
    · exact finishEventsOk_mono _ _ (fun s hs => ⟨c, List.Mem.head _, hs⟩) _ _ hch.1
    · rw [← hch.2]
      refine finishEventsOk_mono _ _ ?_ _ _ ih
      rintro s ⟨c2, hm, hr⟩
      exact ⟨c2, List.Mem.tail _ hm, hr⟩

/-- C2 amended: (non-streaming) a tool-call part anywhere in the response
forces `tool-calls` with the backend's raw signal carried alongside, else the
backend signal is mapped through the STOP/MAX_TOKENS/SAFETY/RECITATION table;
(streaming) each finish event is forced to `tool-calls` exactly when a
tool-call event was emitted before it (so a tool call arriving only after the
terminal chunk does not affect the already-emitted finish event), carrying
the raw reason of a terminal chunk, mapped through the same table when not
forced. -/
theorem c2_amended :
    (∀ (options : CallOptions) (settings : ModelSettings) (response : GenResponse),
      (responseFiresToolCall response = true →
        (doGenerateModel options settings response).finishReason =
          { unified := .toolCalls, raw := responseRawReason response }) ∧
      (responseFiresToolCall response = false →
        (doGenerateModel options settings response).finishReason =
          mapGeminiFinishReason (responseRawReason response))) ∧
    (mapGeminiFinishReason (some "STOP") = { unified := .stop, raw := some "STOP" } ∧
      mapGeminiFinishReason (some "MAX_TOKENS") = { unified := .length, raw := some "MAX_TOKENS" } ∧
      mapGeminiFinishReason (some "SAFETY") = { unified := .contentFilter, raw := some "SAFETY" } ∧
      mapGeminiFinishReason (some "RECITATION") = { unified := .contentFilter, raw := some "RECITATION" } ∧
      mapGeminiFinishReason none = { unified := .other, raw := none } ∧
      (∀ s : String, s ∉ ["STOP", "MAX_TOKENS", "SAFETY", "RECITATION"] →
        mapGeminiFinishReason (some s) = { unified := .other, raw := some s })) ∧
    (∀ (modelId : String) (warnings : List Warning) (chunks : List Chunk),
      FinishEventsOk (fun s => ∃ c ∈ chunks, chunkRawReason c = some s) false
        (runStream modelId none warnings chunks).1) := by
  refine ⟨?_, ⟨rfl, rfl, rfl, rfl, rfl, ?_⟩, ?_⟩
  · intro options settings response
    constructor
    · intro h
      have hb : (buildContent 0 (responseParts response)).2.2 = true :=
        (buildContent_hasToolCalls (responseParts response) 0).trans h
      show (if (buildContent 0 (responseParts response)).2.2 = true then
          ({ unified := UnifiedFinishReason.toolCalls, raw := responseRawReason response } : FinishReason)
        else mapGeminiFinishReason (responseRawReason response)) = _
      rw [if_pos hb]
    · intro h
      have hb : (buildContent 0 (responseParts response)).2.2 = false :=
        (buildContent_hasToolCalls (responseParts response) 0).trans h
      show (if (buildContent 0 (responseParts response)).2.2 = true then
          ({ unified := UnifiedFinishReason.toolCalls, raw := responseRawReason response } : FinishReason)
        else mapGeminiFinishReason (responseRawReason response)) = _
      rw [if_neg (by rw [hb]; exact Bool.false_ne_true)]
  · intro s hs
    unfold mapGeminiFinishReason
    split <;> simp_all
  · intro modelId warnings chunks
    show FinishEventsOk _ false
      (.streamStart warnings :: (runStreamGo modelId none initStreamState 1 chunks).2.1)
    refine ⟨fun fr u he => (by cases he), ?_⟩
    have hgo := runStreamGo_finishEventsOk modelId chunks initStreamState 1
    simpa [isToolCallEvent, initStreamState] using hgo

/-- Witness for `c2_amended` at concrete inputs. -/
theorem c2_amended_witness :
    (doGenerateModel {} {}
      { candidate := some
          { parts := [{ functionCall := some { name := some "f", args := none } }]
            finishReason := some "STOP" } }).finishReason =
      { unified := .toolCalls, raw := some "STOP" } ∧
    mapGeminiFinishReason (some "BLOCKED") = { unified := .other, raw := some "BLOCKED" } :=
  ⟨(c2_amended.1 {} {} _).1 (by decide),
    c2_amended.2.1.2.2.2.2.2 "BLOCKED" (by decide)⟩

theorem finishBlock_finish_mem (modelId : String) (st : StreamState) (s : String) :
    ∀ fr u, StreamEvent.finish fr u ∈ (finishBlock modelId st s).2 →
      u = mkUsage st.totalInputTokens st.totalOutputTokens := by
  unfold finishBlock
  cases st.textPartId <;> intro fr u h <;> simp_all

theorem processChunk_totals (modelId : String) (c : Chunk) (st : StreamState) :
    (processChunk modelId st c).1.totalInputTokens =
      (updateUsage st c.usageMetadata).totalInputTokens ∧
    (processChunk modelId st c).1.totalOutputTokens =
      (updateUsage st c.usageMetadata).totalOutputTokens := by
  have hp := processParts_plumbing (chunkParts c) (updateUsage st c.usageMetadata)
  unfold processChunk
  cases chunkTerminal c with
  | false =>
    rw [if_neg Bool.false_ne_true]
    exact ⟨hp.1, hp.2.1⟩
  | true =>
    rw [if_pos rfl]
    refine ⟨?_, ?_⟩
    · rw [(finishBlock_state modelId _ _).2.2.1, hp.1]
    · rw [(finishBlock_state modelId _ _).2.2.2, hp.2.1]

theorem processChunk_finish_usage (modelId : String) (c : Chunk) (st : StreamState) :
    ∀ fr u, StreamEvent.finish fr u ∈ (processChunk modelId st c).2 →
      u = mkUsage (updateUsage st c.usageMetadata).totalInputTokens
        (updateUsage st c.usageMetadata).totalOutputTokens := by
  have hp := processParts_plumbing (chunkParts c) (updateUsage st c.usageMetadata)
  unfold processChunk
  cases chunkTerminal c with
  | false =>
    rw [if_neg Bool.false_ne_true]
    intro fr u h
    exact absurd h (hp.2.2.1 fr u)
  | true =>
    rw [if_pos rfl]
    intro fr u h
    rcases List.mem_append.mp h with hl | hr
    · exact absurd hl (hp.2.2.1 fr u)
    · have := finishBlock_finish_mem modelId _ _ fr u hr
      rw [this, hp.1, hp.2.1]

theorem runStreamGo_usage_none (modelId : String) :
    ∀ (chunks : List Chunk) (st : StreamState) (i : Nat),
      (∀ c ∈ chunks, c.usageMetadata = none) →
      ∀ fr u, StreamEvent.finish fr u ∈ (runStreamGo modelId none st i chunks).2.1 →
        u = mkUsage st.totalInputTokens st.totalOutputTokens
  | [], _, _, _, fr, u => by intro h; cases h
  | c :: cs, st, i, hnone, fr, u => by
    intro h
    have hc0 : c.usageMetadata = none := hnone c (List.Mem.head _)
    replace h : StreamEvent.finish fr u ∈ (processChunk modelId st c).2 ++
        (runStreamGo modelId none (processChunk modelId st c).1 (i + 1) cs).2.1 := h
    rcases List.mem_append.mp h with hl | hr
    · have := processChunk_finish_usage modelId c st fr u hl
      rw [this, hc0]
      rfl
    · have ht := processChunk_totals modelId c st
      have := runStreamGo_usage_none modelId cs (processChunk modelId st c).1 (i + 1)
        (fun c2 hm => hnone c2 (List.Mem.tail _ hm)) fr u hr
      rw [this, ht.1, ht.2, hc0]
      rfl

theorem finishBlock_finish_shape (modelId : String) (st : StreamState) (s : String) :
    ∀ fr u, StreamEvent.finish fr u ∈ (finishBlock modelId st s).2 →
      ∃ a b, u = mkUsage a b :=
  fun fr u h => ⟨st.totalInputTokens, st.totalOutputTokens,
    finishBlock_finish_mem modelId st s fr u h⟩

theorem runStreamGo_usage_shape (modelId : String) :
    ∀ (chunks : List Chunk) (st : StreamState) (i : Nat),
      ∀ fr u, StreamEvent.finish fr u ∈ (runStreamGo modelId none st i chunks).2.1 →
        ∃ a b, u = mkUsage a b
  | [], _, _, fr, u => by intro h; cases h
  | c :: cs, st, i, fr, u => by
    intro h
    replace h : StreamEvent.finish fr u ∈ (processChunk modelId st c).2 ++
        (runStreamGo modelId none (processChunk modelId st c).1 (i + 1) cs).2.1 := h
    rcases List.mem_append.mp h with hl | hr
    · exact ⟨_, _, processChunk_finish_usage modelId c st fr u hl⟩
    · exact runStreamGo_usage_shape modelId cs (processChunk modelId st c).1 (i + 1) fr u hr

/-- C3 amended: the token totals default to zero (via `|| 0`), not to the
absent/"unknown" marker, when the backend omits usage metadata or either
count; only the breakdown fields (noCache/cacheRead/cacheWrite,
text/reasoning) are always absent.  The streaming finish usage behaves the
same way (every finish usage has present totals, zero when no chunk carried
usage metadata). -/
theorem c3_amended :
    (∀ (options : CallOptions) (settings : ModelSettings) (response : GenResponse),
      (response.usageMetadata.bind (fun u => u.promptTokenCount) = none →
        (doGenerateModel options settings response).usage.inputTokens.total = some 0) ∧
      (response.usageMetadata.bind (fun u => u.candidatesTokenCount) = none →
        (doGenerateModel options settings response).usage.outputTokens.total = some 0) ∧
      ((doGenerateModel options settings response).usage.inputTokens.noCache = none ∧
        (doGenerateModel options settings response).usage.inputTokens.cacheRead = none ∧
        (doGenerateModel options settings response).usage.inputTokens.cacheWrite = none ∧
        (doGenerateModel options settings response).usage.outputTokens.text = none ∧
        (doGenerateModel options settings response).usage.outputTokens.reasoning = none)) ∧
    (∀ (modelId : String) (warnings : List Warning) (chunks : List Chunk),
      (∀ c ∈ chunks, c.usageMetadata = none) →
      ∀ fr u, StreamEvent.finish fr u ∈ (runStream modelId none warnings chunks).1 →
        u = mkUsage 0 0) ∧
    (∀ (modelId : String) (warnings : List Warning) (chunks : List Chunk)
        (fr : FinishReason) (u : Usage),
      StreamEvent.finish fr u ∈ (runStream modelId none warnings chunks).1 →
        ∃ a b, u = mkUsage a b) := by
  refine ⟨?_, ?_, ?_⟩
  · intro options settings response
    refine ⟨fun h => ?_, fun h => ?_, rfl, rfl, rfl, rfl, rfl⟩
    · show some ((response.usageMetadata.bind (fun u => u.promptTokenCount)).getD 0) = some 0
      rw [h]
      rfl
    · show some ((response.usageMetadata.bind (fun u => u.candidatesTokenCount)).getD 0) = some 0
      rw [h]
      rfl
  · intro modelId warnings chunks hnone fr u h
    replace h : StreamEvent.finish fr u ∈
        StreamEvent.streamStart warnings ::
          (runStreamGo modelId none initStreamState 1 chunks).2.1 := h
    rcases List.mem_cons.mp h with he | hm
    · cases he
    · exact runStreamGo_usage_none modelId chunks initStreamState 1 hnone fr u hm
  · intro modelId warnings chunks fr u h
    replace h : StreamEvent.finish fr u ∈
        StreamEvent.streamStart warnings ::
          (runStreamGo modelId none initStreamState 1 chunks).2.1 := h
    rcases List.mem_cons.mp h with he | hm
    · cases he
    · exact runStreamGo_usage_shape modelId chunks initStreamState 1 fr u hm

/-- Witness for `c3_amended` at a concrete response without usage metadata. -/
theorem c3_amended_witness :
    (doGenerateModel {} {}
      { candidate := some { parts := [{ text := some "hi" }], finishReason := some "STOP" } }
      ).usage.inputTokens.total = some 0 ∧
    (doGenerateModel {} {}
      { candidate := some { parts := [{ text := some "hi" }], finishReason := some "STOP" } }
      ).usage.outputTokens.total = some 0 :=
  ⟨(c3_amended.1 {} {} _).1 rfl, (c3_amended.1 {} {} _).2.1 rfl⟩

/-- Text lifecycle of the part loop: an open block is preserved with its id
and no further text-start is emitted; from a closed state the loop either
stays closed emitting no text events, or opens exactly one block whose id
every text event carries. -/
theorem processParts_text :
    ∀ (ps : List GPart) (st : StreamState),
      (∀ x, st.textPartId = some x →
        (processParts st ps).1.textPartId = some x ∧
        (processParts st ps).2.countP isTextStartEvent = 0 ∧
        (∀ e ∈ (processParts st ps).2, ∀ idd, eventTextId e = some idd → idd = x)) ∧
      (st.textPartId = none →
        ((processParts st ps).1.textPartId = none ∧
          (processParts st ps).2.countP isTextStartEvent = 0 ∧
          (∀ e ∈ (processParts st ps).2, eventTextId e = none)) ∨
        (∃ x, (processParts st ps).1.textPartId = some x ∧
          (processParts st ps).2.countP isTextStartEvent = 1 ∧
          (∀ e ∈ (processParts st ps).2, ∀ idd, eventTextId e = some idd → idd = x)))
  | [], st => by
    constructor
    · intro x hx
      exact ⟨hx, rfl, fun e he => absurd he (List.not_mem_nil e)⟩
    · intro hx
      exact Or.inl ⟨hx, rfl, fun e he => absurd he (List.not_mem_nil e)⟩
  | p :: rest, st => by
    by_cases ht : textTruthy p
    · cases hid : st.textPartId with
      | some tid =>
        have hstep : processParts st (p :: rest) =
            ((processParts st rest).1,
              .textDelta tid (p.text.getD "") :: (processParts st rest).2) := by
          simp [processParts, processPart, ht, hid]
        rw [hstep]
        have ih := (processParts_text rest st).1 tid hid
        constructor
        · intro x hx
          obtain rfl : tid = x := Option.some.inj hx
          refine ⟨ih.1, ?_, ?_⟩
          · rw [List.countP_cons_of_neg _ _ (by simp [isTextStartEvent])]
            exact ih.2.1
          · intro e he idd hidd
            rcases List.mem_cons.mp he with he1 | he2
            · subst he1
              exact (Option.some.inj hidd).symm
            · exact ih.2.2 e he2 idd hidd
        · intro hx
          cases hx
      | none =>
        have hstep : processParts st (p :: rest) =
            ((processParts { st with ctr := st.ctr + 1, textPartId := some st.ctr } rest).1,
              .textStart st.ctr :: .textDelta st.ctr (p.text.getD "") ::
                (processParts { st with ctr := st.ctr + 1, textPartId := some st.ctr } rest).2) := by
          simp [processParts, processPart, ht, hid]
        rw [hstep]
        have ih := (processParts_text rest
          { st with ctr := st.ctr + 1, textPartId := some st.ctr }).1 st.ctr rfl
        constructor
        · intro x hx
          cases hx
        · intro _
          refine Or.inr ⟨st.ctr, ih.1, ?_, ?_⟩
          · rw [List.countP_cons_of_pos _ _ (by simp [isTextStartEvent]),
              List.countP_cons_of_neg _ _ (by simp [isTextStartEvent]), ih.2.1]
          · intro e he idd hidd
            rcases List.mem_cons.mp he with he1 | he2
            · subst he1
              exact (Option.some.inj hidd).symm
            · rcases List.mem_cons.mp he2 with he3 | he4
              · subst he3
                exact (Option.some.inj hidd).symm
              · exact ih.2.2 e he4 idd hidd
    · cases hfc : p.functionCall with
      | some fc =>
        have hstep : processParts st (p :: rest) =
            ((processParts { st with ctr := st.ctr + 1, hasToolCalls := true } rest).1,
              .toolCall st.ctr (fc.name.getD "") (fc.args.getD (.jsObj .nil)) p.thoughtSignature ::
                (processParts { st with ctr := st.ctr + 1, hasToolCalls := true } rest).2) := by
          simp [processParts, processPart, ht, hfc]
        rw [hstep]
        have ih := processParts_text rest { st with ctr := st.ctr + 1, hasToolCalls := true }
        constructor
        · intro x hx
          have ih1 := ih.1 x hx
          refine ⟨ih1.1, ?_, ?_⟩
          · rw [List.countP_cons_of_neg _ _ (by simp [isTextStartEvent])]
            exact ih1.2.1
          · intro e he idd hidd
            rcases List.mem_cons.mp he with he1 | he2
            · subst he1
              cases hidd
            · exact ih1.2.2 e he2 idd hidd
        · intro hx
          rcases ih.2 hx with hleft | ⟨x, hx1, hx2, hx3⟩
          · refine Or.inl ⟨hleft.1, ?_, ?_⟩
            · rw [List.countP_cons_of_neg _ _ (by simp [isTextStartEvent])]
              exact hleft.2.1
            · intro e he
              rcases List.mem_cons.mp he with he1 | he2
              · subst he1
                rfl
              · exact hleft.2.2 e he2
          · refine Or.inr ⟨x, hx1, ?_, ?_⟩
            · rw [List.countP_cons_of_neg _ _ (by simp [isTextStartEvent])]
              exact hx2
            · intro e he idd hidd
              rcases List.mem_cons.mp he with he1 | he2
              · subst he1
                cases hidd
              · exact hx3 e he2 idd hidd
      | none =>
        have hstep : processParts st (p :: rest) = processParts st rest := by
          simp [processParts, processPart, ht, hfc]
        rw [hstep]
        exact processParts_text rest st

theorem finishBlock_text (modelId : String) (st : StreamState) (s : String) :
    (finishBlock modelId st s).1.textPartId = st.textPartId ∧
    (finishBlock modelId st s).2.countP isTextStartEvent = 0 ∧
    ((finishBlock modelId st s).2.countP isTextEndEvent ≤ 1) ∧
    (∀ e ∈ (finishBlock modelId st s).2, ∀ idd, eventTextId e = some idd →
      st.textPartId = some idd) := by
  unfold finishBlock
  cases hid : st.textPartId with
  | none =>
    refine ⟨rfl, rfl, by simp [isTextEndEvent], ?_⟩
    intro e he idd hidd
    rcases List.mem_cons.mp he with he1 | he2
    · subst he1
      cases hidd
    · rcases List.mem_cons.mp he2 with he3 | he4
      · subst he3
        cases hidd
      · cases he4
  | some tid =>
    refine ⟨rfl, by simp [isTextStartEvent, isTextEndEvent], by simp [isTextEndEvent], ?_⟩
    intro e he idd hidd
    rcases List.mem_cons.mp he with he1 | he2
    · subst he1
      exact congrArg some (Option.some.inj hidd)
    · rcases List.mem_cons.mp he2 with he3 | he4
      · subst he3
        cases hidd
      · rcases List.mem_cons.mp he4 with he5 | he6
        · subst he5
          cases hidd
        · cases he6

theorem processChunk_text (modelId : String) (c : Chunk) (st : StreamState) :
    (∀ x, st.textPartId = some x →
      (processChunk modelId st c).1.textPartId = some x ∧
      (processChunk modelId st c).2.countP isTextStartEvent = 0 ∧
      (∀ e ∈ (processChunk modelId st c).2, ∀ idd, eventTextId e = some idd → idd = x)) ∧
    (st.textPartId = none →
      ((processChunk modelId st c).1.textPartId = none ∧
        (processChunk modelId st c).2.countP isTextStartEvent = 0 ∧
        (∀ e ∈ (processChunk modelId st c).2, eventTextId e = none)) ∨
      (∃ x, (processChunk modelId st c).1.textPartId = some x ∧
        (processChunk modelId st c).2.countP isTextStartEvent = 1 ∧
        (∀ e ∈ (processChunk modelId st c).2, ∀ idd, eventTextId e = some idd → idd = x))) ∧
    (processChunk modelId st c).2.countP isTextEndEvent ≤ (if chunkTerminal c then 1 else 0) := by
  have hu := updateUsage_fields st c.usageMetadata
  have hpp := processParts_text (chunkParts c) (updateUsage st c.usageMetadata)
  have hpl := processParts_plumbing (chunkParts c) (updateUsage st c.usageMetadata)
  unfold processChunk
  cases hterm : chunkTerminal c with
  | false =>
    rw [if_neg Bool.false_ne_true, if_neg Bool.false_ne_true]
    refine ⟨?_, ?_, ?_⟩
    · intro x hx
      exact hpp.1 x (hu.2.1.trans hx)
    · intro hx
      exact hpp.2 (hu.2.1.trans hx)
    · rw [hpl.2.2.2.1]
  | true =>
    rw [if_pos rfl, if_pos rfl]
    set st1 := (processParts (updateUsage st c.usageMetadata) (chunkParts c)).1 with hst1
    have hfb := finishBlock_text modelId st1 ((chunkRawReason c).getD "")
    refine ⟨?_, ?_, ?_⟩
    · intro x hx
      have hp1 := hpp.1 x (hu.2.1.trans hx)
      refine ⟨hfb.1.trans hp1.1, ?_, ?_⟩
      · rw [List.countP_append, hp1.2.1, hfb.2.1]
      · intro e he idd hidd
        rcases List.mem_append.mp he with hl | hr
        · exact hp1.2.2 e hl idd hidd
        · have := hfb.2.2.2 e hr idd hidd
          rw [hp1.1] at this
          exact (Option.some.inj this).symm
    · intro hx
      rcases hpp.2 (hu.2.1.trans hx) with hleft | ⟨x, hx1, hx2, hx3⟩
      · refine Or.inl ⟨hfb.1.trans hleft.1, ?_, ?_⟩
        · rw [List.countP_append, hleft.2.1, hfb.2.1]
        · intro e he
          rcases List.mem_append.mp he with hl | hr
          · exact hleft.2.2 e hl
          · cases hidd : eventTextId e with
            | none => rfl
            | some idd =>
              have := hfb.2.2.2 e hr idd hidd
              rw [hleft.1] at this
              cases this
      · refine Or.inr ⟨x, hfb.1.trans hx1, ?_, ?_⟩
        · rw [List.countP_append, hx2, hfb.2.1]
        · intro e he idd hidd
          rcases List.mem_append.mp he with hl | hr
          · exact hx3 e hl idd hidd
          · have := hfb.2.2.2 e hr idd hidd
            rw [hx1] at this
            exact (Option.some.inj this).symm
    · rw [List.countP_append, hpl.2.2.2.1]
      simpa using hfb.2.2.1

theorem runStreamGo_text (modelId : String) :
    ∀ (chunks : List Chunk) (st : StreamState) (i : Nat),
      (∀ x, st.textPartId = some x →
        (runStreamGo modelId none st i chunks).1.textPartId = some x ∧
        (runStreamGo modelId none st i chunks).2.1.countP isTextStartEvent = 0 ∧
        (∀ e ∈ (runStreamGo modelId none st i chunks).2.1, ∀ idd,
          eventTextId e = some idd → idd = x)) ∧
      (st.textPartId = none →
        ((runStreamGo modelId none st i chunks).1.textPartId = none ∧
          (runStreamGo modelId none st i chunks).2.1.countP isTextStartEvent = 0 ∧
          (∀ e ∈ (runStreamGo modelId none st i chunks).2.1, eventTextId e = none)) ∨
        (∃ x, (runStreamGo modelId none st i chunks).1.textPartId = some x ∧
          (runStreamGo modelId none st i chunks).2.1.countP isTextStartEvent = 1 ∧
          (∀ e ∈ (runStreamGo modelId none st i chunks).2.1, ∀ idd,
            eventTextId e = some idd → idd = x))) ∧
      (runStreamGo modelId none st i chunks).2.1.countP isTextEndEvent ≤
        chunks.countP chunkTerminal
  | [], st, i => by
    refine ⟨?_, ?_, by rw [show (runStreamGo modelId none st i []).2.1 = [] from rfl]; simp⟩
    · intro x hx
      exact ⟨hx, rfl, fun e he => absurd he (List.not_mem_nil e)⟩
    · intro hx
      exact Or.inl ⟨hx, rfl, fun e he => absurd he (List.not_mem_nil e)⟩
  | c :: cs, st, i => by
    have hch := processChunk_text modelId c st
    have ih := runStreamGo_text modelId cs (processChunk modelId st c).1 (i + 1)
    have hstep : runStreamGo modelId none st i (c :: cs) =
        ((runStreamGo modelId none (processChunk modelId st c).1 (i + 1) cs).1,
          (processChunk modelId st c).2 ++
            (runStreamGo modelId none (processChunk modelId st c).1 (i + 1) cs).2.1,
          (runStreamGo modelId none (processChunk modelId st c).1 (i + 1) cs).2.2) := rfl
    rw [hstep]
    refine ⟨?_, ?_, ?_⟩
    · intro x hx
      have h1 := hch.1 x hx
      have h2 := ih.1 x h1.1
      refine ⟨h2.1, ?_, ?_⟩
      · rw [List.countP_append, h1.2.1, h2.2.1]
      · intro e he idd hidd
        rcases List.mem_append.mp he with hl | hr
        · exact h1.2.2 e hl idd hidd
        · exact h2.2.2 e hr idd hidd
    · intro hx
      rcases hch.2.1 hx with hleft | ⟨x, hx1, hx2, hx3⟩
      · rcases ih.2.1 hleft.1 with ileft | ⟨x, ix1, ix2, ix3⟩
        · refine Or.inl ⟨ileft.1, ?_, ?_⟩
          · rw [List.countP_append, hleft.2.1, ileft.2.1]
          · intro e he
            rcases List.mem_append.mp he with hl | hr
            · exact hleft.2.2 e hl
            · exact ileft.2.2 e hr
        · refine Or.inr ⟨x, ix1, ?_, ?_⟩
          · rw [List.countP_append, hleft.2.1, ix2]
          · intro e he idd hidd
            rcases List.mem_append.mp he with hl | hr
            · rw [hleft.2.2 e hl] at hidd
              cases hidd
            · exact ix3 e hr idd hidd
      · have h2 := ih.1 x hx1
        refine Or.inr ⟨x, h2.1, ?_, ?_⟩
        · rw [List.countP_append, hx2, h2.2.1]
        · intro e he idd hidd
          rcases List.mem_append.mp he with hl | hr
          · exact hx3 e hl idd hidd
          · exact h2.2.2 e hr idd hidd
    · rw [List.countP_append, List.countP_cons]
      have h1 := hch.2.2
      have h2 := ih.2.2
      by_cases hterm : chunkTerminal c = true
      · rw [if_pos hterm] at h1
        simp only [hterm, if_pos]
        omega
      · rw [if_neg hterm] at h1
        have hterm2 : chunkTerminal c = false := by
          cases hcc : chunkTerminal c
          · rfl
          · exact absurd hcc hterm
        simp only [hterm2]
        omega

/-- C10 amended: at most one text-start per stream, all text lifecycle events
share one block id (even for text arriving after a terminal chunk), and the
number of text-end events is bounded by the number of terminal-signal chunks
— so streams with at most one terminal chunk have at most one text-end, but
each additional terminal chunk re-closes the never-reset block. -/
theorem c10_amended (modelId : String) (warnings : List Warning) (chunks : List Chunk) :
    ((runStream modelId none warnings chunks).1.countP isTextStartEvent ≤ 1) ∧
    (∀ e1 ∈ (runStream modelId none warnings chunks).1,
      ∀ e2 ∈ (runStream modelId none warnings chunks).1,
      ∀ i1 i2, eventTextId e1 = some i1 → eventTextId e2 = some i2 → i1 = i2) ∧
    ((runStream modelId none warnings chunks).1.countP isTextEndEvent ≤
      chunks.countP chunkTerminal) ∧
    (chunks.countP chunkTerminal ≤ 1 →
      (runStream modelId none warnings chunks).1.countP isTextEndEvent ≤ 1) := by
  have hstep : runStream modelId none warnings chunks =
      (StreamEvent.streamStart warnings ::
        (runStreamGo modelId none initStreamState 1 chunks).2.1,
        (runStreamGo modelId none initStreamState 1 chunks).2.2) := rfl
  have hgo := runStreamGo_text modelId chunks initStreamState 1
  have hids : ∀ e1 ∈ (runStreamGo modelId none initStreamState 1 chunks).2.1,
      ∀ e2 ∈ (runStreamGo modelId none initStreamState 1 chunks).2.1,
      ∀ i1 i2, eventTextId e1 = some i1 → eventTextId e2 = some i2 → i1 = i2 := by
    rcases hgo.2.1 rfl with hleft | ⟨x, _, _, hx3⟩
    · intro e1 he1 e2 he2 i1 i2 h1 h2
      rw [hleft.2.2 e1 he1] at h1
      cases h1
    · intro e1 he1 e2 he2 i1 i2 h1 h2
      rw [hx3 e1 he1 i1 h1, hx3 e2 he2 i2 h2]
  have hcs : (runStreamGo modelId none initStreamState 1 chunks).2.1.countP
      isTextStartEvent ≤ 1 := by
    rcases hgo.2.1 rfl with hleft | ⟨x, _, hx2, _⟩
    · rw [hleft.2.1]
      decide
    · rw [hx2]
  rw [hstep]
  refine ⟨?_, ?_, ?_, ?_⟩
  · rw [List.countP_cons_of_neg _ _ (by simp [isTextStartEvent])]
    exact hcs
  · intro e1 he1 e2 he2 i1 i2 h1 h2
    rcases List.mem_cons.mp he1 with h | he1g
    · subst h
      cases h1
    · rcases List.mem_cons.mp he2 with h | he2g
      · subst h
        cases h2
      · exact hids e1 he1g e2 he2g i1 i2 h1 h2
  · rw [List.countP_cons_of_neg _ _ (by simp [isTextEndEvent])]
    exact hgo.2.2
  · intro hone
    rw [List.countP_cons_of_neg _ _ (by simp [isTextEndEvent])]
    exact Nat.le_trans hgo.2.2 hone

/-- Witness for `c10_amended` at a concrete single-terminal-chunk stream. -/
theorem c10_amended_witness :
    (runStream "m" none []
      [{ candidate := some
          { parts := [{ text := some "a" }]
            finishReason := some "STOP" } }]).1.countP isTextEndEvent ≤ 1 :=
  (c10_amended "m" [] _).2.2.2 (by decide)

theorem mapUserMessage_error_after (d : FileData) (mt : Option String) (rest : List UserPart)
    (hbad : supportedMediaType (mediaTypeOrDefault mt) = false) :
    ∀ (pre : List UserPart) (out : List ReqPart),
      mapUserMessage pre = .ok out →
      mapUserMessage (pre ++ .file d mt :: rest) =
        .error (.unsupportedFileType (mediaTypeOrDefault mt))
  | [], _, _ => by
    simp [mapUserMessage, hbad]
  | .text s :: pre, out, h => by
    cases hrec : mapUserMessage pre with
    | error e => simp [mapUserMessage, hrec, Except.bind, Except.map] at h
    | ok out2 =>
      simp [mapUserMessage, Except.bind, Except.map,
        mapUserMessage_error_after d mt rest hbad pre out2 hrec]
  | .file d0 mt0 :: pre, out, h => by
    by_cases hsup : supportedMediaType (mediaTypeOrDefault mt0)
    · cases hfp : mapFilePart d0 mt0 with
      | error e => simp [mapUserMessage, hsup, hfp, Except.bind, Except.map] at h
      | ok fp =>
        cases hrec : mapUserMessage pre with
        | error e => simp [mapUserMessage, hsup, hfp, hrec, Except.bind, Except.map] at h
        | ok out2 =>
          simp [mapUserMessage, hsup, hfp, Except.bind, Except.map,
            mapUserMessage_error_after d mt rest hbad pre out2 hrec]
    · simp [mapUserMessage, hsup] at h

theorem mapUserMessage_length :
    ∀ (parts : List UserPart) (out : List ReqPart),
      mapUserMessage parts = .ok out → out.length = parts.length
  | [], out, h => by
    cases h
    rfl
  | .text s :: rest, out, h => by
    cases hrec : mapUserMessage rest with
    | error e => simp [mapUserMessage, hrec] at h
    | ok out2 =>
      simp only [mapUserMessage, hrec, Except.bind] at h
      cases h
      simp [mapUserMessage_length rest out2 hrec]
  | .file d mt :: rest, out, h => by
    by_cases hsup : supportedMediaType (mediaTypeOrDefault mt)
    · cases hfp : mapFilePart d mt with
      | error e => simp [mapUserMessage, hsup, hfp] at h
      | ok fp =>
        cases hrec : mapUserMessage rest with
        | error e => simp [mapUserMessage, hsup, hfp, hrec] at h
        | ok out2 =>
          simp only [mapUserMessage, hsup, if_true, hfp, hrec, Except.bind] at h
          cases h
          simp [mapUserMessage_length rest out2 hrec]
    · simp [mapUserMessage, hsup] at h

theorem mapAssistantMessage_drops_file (d : FileData) (mt : Option String) :
    ∀ (l r : List AssistantPart),
      mapAssistantMessage (l ++ .file d mt :: r) = mapAssistantMessage (l ++ r)
  | [], r => by simp [mapAssistantMessage]
  | .text s :: l, r => by
    simp [mapAssistantMessage, mapAssistantMessage_drops_file d mt l r]
  | .toolCall n i sg :: l, r => by
    simp [mapAssistantMessage, mapAssistantMessage_drops_file d mt l r]
  | .file d0 mt0 :: l, r => by
    simp [mapAssistantMessage, mapAssistantMessage_drops_file d mt l r]

theorem mapAssistantMessage_ok :
    ∀ parts : List AssistantPart, ∃ out, mapAssistantMessage parts = .ok out
  | [] => ⟨[], rfl⟩
  | .text s :: rest => by
    obtain ⟨out, h⟩ := mapAssistantMessage_ok rest
    exact ⟨.text s :: out, by simp [mapAssistantMessage, h]⟩
  | .toolCall n i sg :: rest => by
    obtain ⟨out, h⟩ := mapAssistantMessage_ok rest
    exact ⟨.functionCall n (i.getD (.jsObj .nil)) sg :: out, by simp [mapAssistantMessage, h]⟩
  | .file d0 mt0 :: rest => by
    obtain ⟨out, h⟩ := mapAssistantMessage_ok rest
    exact ⟨out, by simp [mapAssistantMessage, h]⟩

/-- C8 amended: in user messages an unsupported-media-type file part raises
the "Unsupported file type" mapping error naming the mime type (whenever the
parts before it map cleanly), and a successful user mapping never drops a
part (one output part per input part); in assistant messages, however, file
parts are silently dropped: the mapper never fails and removing a file part
leaves its output unchanged. -/
theorem c8_amended :
    (∀ (d : FileData) (mt : Option String) (rest pre : List UserPart) (out : List ReqPart),
      supportedMediaType (mediaTypeOrDefault mt) = false →
      mapUserMessage pre = .ok out →
      mapUserMessage (pre ++ .file d mt :: rest) =
        .error (.unsupportedFileType (mediaTypeOrDefault mt))) ∧
    (∀ (parts : List UserPart) (out : List ReqPart),
      mapUserMessage parts = .ok out → out.length = parts.length) ∧
    (∀ (d : FileData) (mt : Option String) (l r : List AssistantPart),
      mapAssistantMessage (l ++ .file d mt :: r) = mapAssistantMessage (l ++ r)) ∧
    (∀ parts : List AssistantPart, ∃ out, mapAssistantMessage parts = .ok out) :=
  ⟨fun d mt rest pre out hbad hok =>
      mapUserMessage_error_after d mt rest hbad pre out hok,
    mapUserMessage_length, mapAssistantMessage_drops_file, mapAssistantMessage_ok⟩

/-- Witness for `c8_amended` at a concrete user message. -/
theorem c8_amended_witness :
    mapUserMessage [.text "hello", .file (.base64 "QUJD") (some "text/csv")] =
      .error (.unsupportedFileType "text/csv") ∧
    ([ReqPart.text "hello"] : List ReqPart).length = ([UserPart.text "hello"] : List UserPart).length :=
  ⟨c8_amended.1 (.base64 "QUJD") (some "text/csv") [] [.text "hello"] [.text "hello"]
      (by decide) rfl,
    c8_amended.2.1 [.text "hello"] [.text "hello"] rfl⟩

/-- Witness for `c4_json_mode_policy` at concrete response formats. -/
theorem c4_json_mode_policy_witness :
    (prepareGenerationConfig { responseFormat := some { rtype := "json" } } {}).2 =
      [responseFormatWarning] ∧
    (prepareGenerationConfig
      { responseFormat := some { rtype := "json", schema := some (.jsObj .nil) } } {}
      ).1.responseMimeType = "application/json" ∧
    (prepareGenerationConfig { responseFormat := some { rtype := "text" } } {}).2 = [] :=
  ⟨((c4_json_mode_policy { responseFormat := some { rtype := "json" } } {}).1 rfl).2.2.1,
    (((c4_json_mode_policy
        { responseFormat := some { rtype := "json", schema := some (.jsObj .nil) } } {}).2.1)
      (.jsObj .nil) rfl).2.1,
    ((c4_json_mode_policy { responseFormat := some { rtype := "text" } } {}).2.2
      (by decide)).2⟩
